import Mathlib

/-!
Verification of the Action orchestration engine of
packages/api/src/v3/action.ts (TeamsFx repository).

Shallow embedding notes.

The engine walks a tree of Action nodes twice: planAction (dry run) and
executeAction (side effecting).  In the source, actions are mutable heap
objects shared between the root tree and the registry (a Map from action
name to Action object), and planAction sorts the child array of a
sequential group in place.  To model that sharing and mutation we use an
explicit heap: a Store mapping numeric node ids to ActionNode values; a
group holds the ids of its children and the registry maps names to ids.

Both walkers are async TypeScript functions.  Every recursive descent of
executeAction is awaited, as is the group loop of planAction, so for
those paths await is sequential composition (the identity monad view of
async code) and the fueled walkers below are exact.  One descent is not
awaited: planAction's recursion into a call target (source line 476)
discards the returned promise, so under JavaScript microtask semantics
the target subtree's remaining steps interleave with later siblings.
The development therefore has two models of the Plan Walker: planAction,
the sequenced model in which that descent completes before the caller
proceeds (the order the walker sorts and visits the tree in, and what an
awaited recursion would print), and planActionAsync, a small-step
microtask machine that is faithful to the un-awaited descent and is used
to refute the round-trip ordering claim (C9).

Recursion in the source is unguarded (no visited set), so the embedding
uses explicit fuel; running out of fuel is reported with the distinct
outcome WErr.outOfFuel, which models divergence of the source program.
A thrown JavaScript Error is modeled by the outcome WErr.thrown.

Each walker result also carries a ghost trace: the list of leaf node ids
(function and shell actions) in the order the walker processed them.
This instruments the embedding for ordering claims and adds no behavior.
-/

/-- Group execution mode, source field mode?: "sequential" | "parallel". -/
inductive Mode where
  | sequential : Mode
  | parallel : Mode
deriving DecidableEq, Repr

/-- Values stored in the shared mutable inputs bag (any-typed in the source).
The undef value models reading an absent key in JavaScript. -/
inductive Val where
  | num : Int → Val
  | str : String → Val
  | undef : Val
deriving DecidableEq, Repr

/-- The inputs bag: a mutable string-keyed map, modeled as an association list. -/
abbrev Inputs := List (String × Val)

/-- Reading inputs[k]; an absent key reads as undefined. -/
def getInput (inp : Inputs) (k : String) : Val :=
  match inp with
  | [] => Val.undef
  | (k', v) :: rest => if k' = k then v else getInput rest k

/-- Writing inputs[k] = v: replace the existing binding or append a new one. -/
def setInput (inp : Inputs) (k : String) (v : Val) : Inputs :=
  match inp with
  | [] => [(k, v)]
  | (k', v') :: rest => if k' = k then (k, v) :: rest else (k', v') :: setInput rest k v

/-- Outcome of a FunctionAction plan callback: a returned description string,
or a thrown exception. -/
inductive PlanRes where
  | ret : String → PlanRes
  | thrown : String → PlanRes

/-- Outcome of a FunctionAction execute callback: a returned Result (ok or err,
source type Result of neverthrow), or a thrown exception. -/
inductive FnRes where
  | ok : FnRes
  | err : String → FnRes
  | thrown : String → FnRes

/-- One Action node of the heap.  Mirrors the tagged union
GroupAction | CallAction | FunctionAction | ShellAction of the source; a
group stores the ids of its children, and Function callbacks are modeled
as state transformers on the inputs bag (they may mutate it and return
or throw). -/
inductive ActionNode where
  | group (name : Option String) (mode : Option Mode) (actions : List Nat)
      (priority : Option Nat) : ActionNode
  | shell (name : Option String) (description : String) (command : String)
      (cwd : Option String) (asyncFlag : Option Bool) (captureStdout : Option Bool)
      (captureStderr : Option Bool) (priority : Option Nat) : ActionNode
  | call (name : Option String) (required : Bool) (targetAction : String)
      (inputs : Option (List (String × String))) (priority : Option Nat) : ActionNode
  | func (name : Option String) (planFn : Inputs → Inputs × PlanRes)
      (executeFn : Inputs → Inputs × FnRes) (priority : Option Nat) : ActionNode

/-- The heap of action nodes. -/
abbrev Store := Nat → Option ActionNode

/-- The registry (source: Map from qualified action name to Action), mapping a
name to the id of the named node in the heap. -/
abbrev Registry := List (String × Nat)

/-- Registry lookup, source actions.get(name). -/
def lookupReg (reg : Registry) (t : String) : Option Nat :=
  match reg with
  | [] => none
  | (k, v) :: rest => if k = t then some v else lookupReg rest t

/-- The priority? field shared by all four node variants. -/
def ActionNode.priority : ActionNode → Option Nat
  | .group _ _ _ p => p
  | .shell _ _ _ _ _ _ _ p => p
  | .call _ _ _ _ p => p
  | .func _ _ _ p => p

/-- The actions field of a group node, none for other variants. -/
def groupActions : Option ActionNode → Option (List Nat)
  | some (.group _ _ acts _) => some acts
  | _ => none

/-- JavaScript truthiness of an optional numeric priority: undefined and 0 are
falsy.  The source guards both priority reads with plain if (x.priority). -/
def truthy : Option Nat → Bool
  | some p => p != 0
  | none => false

/-- The ActionPriority enum of the source, P0 = 0 (highest) .. P6 = 6 (lowest). -/
def ActionPriority.P0 : Nat := 0

/-- ActionPriority.P3, the default priority. -/
def ActionPriority.P3 : Nat := 3

/-- ActionPriority.P6, the lowest priority. -/
def ActionPriority.P6 : Nat := 6

/-- Source getActionPriority(action, actions): own priority if truthy, else a
truthy priority of the registry-resolved call target, else the default P3. -/
def getActionPriority (a : ActionNode) (reg : Registry) (st : Store) : Nat :=
  if truthy a.priority then a.priority.getD ActionPriority.P3
  else
    match a with
    | .call _ _ targetAction _ _ =>
      (match (lookupReg reg targetAction).bind st with
       | some ta =>
         if truthy ta.priority then ta.priority.getD ActionPriority.P3
         else ActionPriority.P3
       | none => ActionPriority.P3)
    | _ => ActionPriority.P3

/-- Resolved priority of the child at a given heap id (the sort key used when a
sequential group sorts its child array).  A dangling id never occurs in a
well formed heap; it defaults to P3. -/
def priorKey (reg : Registry) (st : Store) (cid : Nat) : Nat :=
  match st cid with
  | some a => getActionPriority a reg st
  | none => ActionPriority.P3

/-- Stable insertion of one id into a sorted list of ids: x goes before the
first element of key not smaller than its own. -/
def insPrio (key : Nat → Nat) (x : Nat) : List Nat → List Nat
  | [] => [x]
  | y :: ys => if key x ≤ key y then x :: y :: ys else y :: insPrio key x ys

/-- Stable ascending sort by key; models Array.prototype.sort with the
comparator p1 - p2 used by planAction (the ECMAScript sort is stable). -/
def sortPrio (key : Nat → Nat) : List Nat → List Nat
  | [] => []
  | x :: xs => insPrio key x (sortPrio key xs)

/-- Walker failure outcomes: a thrown Error (the only failure channel the
source walkers have), an impossible dangling heap reference, and fuel
exhaustion (modeling divergence of the unguarded recursion). -/
inductive WErr where
  | thrown : String → WErr
  | badRef : WErr
  | outOfFuel : WErr
deriving DecidableEq, Repr

/-- Result of one walker run: final heap, final inputs bag, the console.log
lines emitted by this run, the ghost trace of leaf ids visited, and the
error outcome (none on success). -/
structure WRes where
  store : Store
  inputs : Inputs
  log : List String
  trace : List Nat
  err : Option WErr

/-- Heap update at one id (the in-place mutation of one action object). -/
def updateStore (st : Store) (id : Nat) (a : ActionNode) : Store :=
  fun j => if j = id then some a else st j

/-- The rename loop of a call action: for each target key of the action.inputs
table, inputs[target] = inputs[source], in table order. -/
def applyRenames (rn : List (String × String)) (inp : Inputs) : Inputs :=
  rn.foldl (fun acc p => setInput acc p.1 (getInput acc p.2)) inp

/-- Name printed by console.log("execute:" + action.name); an undefined name
prints as the string undefined. -/
def showName : Option String → String
  | some s => s
  | none => "undefined"

/-- The for loop over a group's children shared by both walkers: run the node
walker on each child in order, aborting on the first failure (a thrown error
propagates out of the loop); logs and traces accumulate. -/
def seqRun (walkNode : Store → Inputs → Nat → WRes) :
    Store → Inputs → List Nat → WRes
  | st, inp, [] => ⟨st, inp, [], [], none⟩
  | st, inp, id :: rest =>
    let r := walkNode st inp id
    match r.err with
    | some e => ⟨r.store, r.inputs, r.log, r.trace, some e⟩
    | none =>
      let r2 := seqRun walkNode r.store r.inputs rest
      ⟨r2.store, r2.inputs, r.log ++ r2.log, r.trace ++ r2.trace, r2.err⟩

/-- One unfolding of planAction, with recur standing for the recursive call.
Mirrors the source body: function logs the plan callback result; shell logs
the command; call resolves the target in the registry, throws when a required
target is absent, skips an optional absent target, else applies the rename
table and descends; group sorts its child array in place by resolved
priority unless the mode is parallel, then runs the children in order.
Caution: the source invokes the descent into a call target without await
(line 476); this body sequences it, serializing the target subtree's effects
and errors before later siblings.  That sequencing is exact for the
synchronous prefix of a run (sorting, registry resolution, renames, the
throw on a required missing target) and for everything executeAction does
(its descent, line 515, is awaited), but it is not faithful to the order in
which a real plan run emits leaf visits once the un-awaited subtree suspends
more than once: planActionAsync below models that interleaving. -/
def planActionBody (recur : Store → Inputs → Nat → WRes) (reg : Registry)
    (st : Store) (inp : Inputs) (id : Nat) : WRes :=
  match st id with
  | none => ⟨st, inp, [], [], some WErr.badRef⟩
  | some (.func _ planFn _ _) =>
    let pr := planFn inp
    (match pr.2 with
     | .ret d => ⟨st, pr.1, ["plan:" ++ d], [id], none⟩
     | .thrown e => ⟨st, pr.1, [], [id], some (WErr.thrown e)⟩)
  | some (.shell _ _ command _ _ _ _ _) =>
    ⟨st, inp, ["plan: shell " ++ command], [id], none⟩
  | some (.call _ required targetAction renames _) =>
    (match lookupReg reg targetAction with
     | none =>
       if required then
         ⟨st, inp, [], [], some (WErr.thrown ("targetAction not exist: " ++ targetAction))⟩
       else ⟨st, inp, [], [], none⟩
     | some tid =>
       let inp2 := match renames with
         | some rn => applyRenames rn inp
         | none => inp
       recur st inp2 tid)
  | some (.group nm mode children p) =>
    if mode = none ∨ mode = some Mode.sequential then
      let sorted := sortPrio (priorKey reg st) children
      seqRun recur (updateStore st id (.group nm mode sorted p)) inp sorted
    else seqRun recur st inp children

/-- Source planAction, with explicit fuel bounding the recursion depth. -/
def planAction : Nat → Registry → Store → Inputs → Nat → WRes
  | 0, _, st, inp, _ => ⟨st, inp, [], [], some WErr.outOfFuel⟩
  | fuel + 1, reg, st, inp, id => planActionBody (planAction fuel reg) reg st inp id

/-- One unfolding of executeAction.  Mirrors the source body: function logs
execute: plus the name and then invokes the execute callback, discarding its
returned Result (only a thrown exception aborts); shell only logs the
command; call resolves, throws when a required target is absent, skips an
optional absent target, else renames and descends; group runs the children
in array order with no sorting and no mode distinction. -/
def executeActionBody (recur : Store → Inputs → Nat → WRes) (reg : Registry)
    (st : Store) (inp : Inputs) (id : Nat) : WRes :=
  match st id with
  | none => ⟨st, inp, [], [], some WErr.badRef⟩
  | some (.func nm _ executeFn _) =>
    let er := executeFn inp
    (match er.2 with
     | .thrown e => ⟨st, er.1, ["execute:" ++ showName nm], [id], some (WErr.thrown e)⟩
     | _ => ⟨st, er.1, ["execute:" ++ showName nm], [id], none⟩)
  | some (.shell _ _ command _ _ _ _ _) =>
    ⟨st, inp, ["shell:" ++ command], [id], none⟩
  | some (.call _ required targetAction renames _) =>
    (match lookupReg reg targetAction with
     | none =>
       if required then
         ⟨st, inp, [], [], some (WErr.thrown ("action not exist: " ++ targetAction))⟩
       else ⟨st, inp, [], [], none⟩
     | some tid =>
       let inp2 := match renames with
         | some rn => applyRenames rn inp
         | none => inp
       recur st inp2 tid)
  | some (.group _ _ children _) => seqRun recur st inp children

/-- Source executeAction, with explicit fuel bounding the recursion depth. -/
def executeAction : Nat → Registry → Store → Inputs → Nat → WRes
  | 0, _, st, inp, _ => ⟨st, inp, [], [], some WErr.outOfFuel⟩
  | fuel + 1, reg, st, inp, id => executeActionBody (executeAction fuel reg) reg st inp id

/-!
The asynchronous Plan Walker.  planActionAsync runs planAction under
JavaScript microtask semantics, as a small-step machine over a FIFO
microtask queue.  An async function runs synchronously until its first
await; awaiting a value or an already-settled promise enqueues the
continuation at the back of the queue (one microtask hop); awaiting a
pending promise parks the continuation until that promise settles, at
which point the reaction is enqueued.  Since every await in planAction
awaits the promise of a child activation, each chain of awaiting
activations is represented as one queued thread: a stack of parked
frames, innermost first, and finishing a frame re-enqueues the rest of
the stack (the promise-resolution hop).  The un-awaited descent into a
call target (source line 476) starts the target synchronously as a fresh
chain whose completion, suspension or rejection is discarded, exactly
like the discarded promise; a rejection unwinds its own chain one frame
per microtask and is reported only if the chain contains the root
(otherwise it is an unhandled rejection).  Plan callbacks are the
synchronous ones of the Action model: a function leaf runs its callback,
suspends once on the await, and logs on resumption. -/

/-- Parked continuation of one suspended planAction activation: a function
leaf that has run its callback and will log its description when resumed
(console.log after the await, source line 461), or a group loop with its
remaining children (the continuation of the awaited for loop). -/
inductive PFrame where
  | logThen (line : String) : PFrame
  | seqLoop (ids : List Nat) : PFrame

/-- One chain of awaiting activations in the microtask queue.  The main flag
marks the chain containing the root activation, whose outcome the caller
awaits; failing carries an exception unwinding the chain (each hop rejects
one more awaiting activation). -/
structure PThread where
  main : Bool
  failing : Option String
  frames : List PFrame

/-- State of the asynchronous plan run: the shared heap and inputs bag, the
console log, the ghost trace of leaf ids in processing order (callback
invocation for a function, the log for a shell), the microtask queue, the
rejection that reached the top level if any, whether the root chain ran to
completion, and whether the machine's fuel ran out. -/
structure AsyncState where
  store : Store
  inputs : Inputs
  log : List String
  trace : List Nat
  queue : List PThread
  mainErr : Option String
  mainDone : Bool
  fuelOut : Bool

/-- Outcome of running one activation synchronously to its first suspension:
it completed (its promise is resolved), threw (its promise is rejected), or
parked itself in the queue together with its awaiting ancestors. -/
inductive SyncOut where
  | completed : SyncOut
  | thrownE (e : String) : SyncOut
  | parked : SyncOut
  | noFuel : SyncOut

/-- Synchronous segment of one planAction activation, carrying the stack of
awaiting ancestor frames.  Function: run the callback, then the await parks
the chain (one frame for the pending console.log); a callback that throws
rejects the activation before any await.  Shell: log and complete
synchronously (no await in that branch).  Call: resolve the target; a
required missing target rejects synchronously (source line 467); an optional
missing target completes; otherwise apply the renames and start the target
synchronously as a fresh discarded chain (the un-awaited descent, line 476),
then complete.  Group: sort the child array in place as planAction does,
then the awaited loop starts the first child with the loop continuation
pushed on the stack; if that child completes or rejects synchronously, the
loop's await still costs one hop, so the continuation (or its rejection) is
enqueued and the segment ends. -/
def syncStart : Nat → Registry → Bool → AsyncState → Nat → List PFrame → AsyncState × SyncOut
  | 0, _, _, s, _, _ => (s, SyncOut.noFuel)
  | fuel + 1, reg, isMain, s, id, stack =>
    match s.store id with
    | none => (s, SyncOut.thrownE "badRef")
    | some (.func _ planFn _ _) =>
      let pr := planFn s.inputs
      (match pr.2 with
       | .ret d =>
         ({ s with
            inputs := pr.1,
            trace := s.trace ++ [id],
            queue := s.queue ++ [⟨isMain, none, PFrame.logThen ("plan:" ++ d) :: stack⟩] },
          SyncOut.parked)
       | .thrown e =>
         ({ s with inputs := pr.1, trace := s.trace ++ [id] }, SyncOut.thrownE e))
    | some (.shell _ _ command _ _ _ _ _) =>
      ({ s with log := s.log ++ ["plan: shell " ++ command], trace := s.trace ++ [id] },
       SyncOut.completed)
    | some (.call _ required targetAction renames _) =>
      (match lookupReg reg targetAction with
       | none =>
         if required then (s, SyncOut.thrownE ("targetAction not exist: " ++ targetAction))
         else (s, SyncOut.completed)
       | some tid =>
         let inp2 := match renames with
           | some rn => applyRenames rn s.inputs
           | none => s.inputs
         let s1 := { s with inputs := inp2 }
         let r := syncStart fuel reg false s1 tid []
         (match r.2 with
          | SyncOut.noFuel => (r.1, SyncOut.noFuel)
          | _ => (r.1, SyncOut.completed)))
    | some (.group nm mode children p) =>
      let kids := if mode = none ∨ mode = some Mode.sequential then
          sortPrio (priorKey reg s.store) children
        else children
      let s1 := if mode = none ∨ mode = some Mode.sequential then
          { s with store := updateStore s.store id (ActionNode.group nm mode kids p) }
        else s
      (match kids with
       | [] => (s1, SyncOut.completed)
       | c :: rest =>
         let r := syncStart fuel reg isMain s1 c (PFrame.seqLoop rest :: stack)
         (match r.2 with
          | SyncOut.parked => (r.1, SyncOut.parked)
          | SyncOut.noFuel => (r.1, SyncOut.noFuel)
          | SyncOut.completed =>
            ({ r.1 with queue := r.1.queue ++ [⟨isMain, none, PFrame.seqLoop rest :: stack⟩] },
             SyncOut.parked)
          | SyncOut.thrownE e =>
            ({ r.1 with queue := r.1.queue ++ [⟨isMain, some e, PFrame.seqLoop rest :: stack⟩] },
             SyncOut.parked)))

/-- Run one dequeued microtask.  A failing chain pops one awaiting frame per
hop, reporting the exception when the chain containing the root is fully
unwound and dropping it otherwise (unhandled rejection).  Resuming a
function leaf logs its line and completes the activation, which re-enqueues
the awaiting remainder of the chain; resuming a group loop with children
left starts the next child synchronously, and with none left completes the
group likewise. -/
def stepThread (fuel : Nat) (reg : Registry) (s : AsyncState) (t : PThread) : AsyncState :=
  match t.failing with
  | some e =>
    (match t.frames with
     | [] => if t.main then { s with mainErr := some e } else s
     | [_] => if t.main then { s with mainErr := some e } else s
     | _ :: rest => { s with queue := s.queue ++ [⟨t.main, some e, rest⟩] })
  | none =>
    (match t.frames with
     | [] => if t.main then { s with mainDone := true } else s
     | PFrame.logThen line :: rest =>
       let s1 := { s with log := s.log ++ [line] }
       (match rest with
        | [] => if t.main then { s1 with mainDone := true } else s1
        | _ => { s1 with queue := s1.queue ++ [⟨t.main, none, rest⟩] })
     | PFrame.seqLoop [] :: rest =>
       (match rest with
        | [] => if t.main then { s with mainDone := true } else s
        | _ => { s with queue := s.queue ++ [⟨t.main, none, rest⟩] })
     | PFrame.seqLoop (c :: ids) :: rest =>
       let r := syncStart fuel reg t.main s c (PFrame.seqLoop ids :: rest)
       (match r.2 with
        | SyncOut.parked => r.1
        | SyncOut.noFuel => { r.1 with fuelOut := true }
        | SyncOut.completed =>
          { r.1 with queue := r.1.queue ++ [⟨t.main, none, PFrame.seqLoop ids :: rest⟩] }
        | SyncOut.thrownE e =>
          { r.1 with queue := r.1.queue ++ [⟨t.main, some e, PFrame.seqLoop ids :: rest⟩] }))

/-- Drain the microtask queue in FIFO order. -/
def runQueue : Nat → Registry → AsyncState → AsyncState
  | 0, _, s =>
    (match s.queue with
     | [] => s
     | _ => { s with fuelOut := true })
  | fuel + 1, reg, s =>
    (match s.queue with
     | [] => s
     | t :: q => runQueue fuel reg (stepThread fuel reg { s with queue := q } t))

/-- The Plan Walker under JavaScript microtask semantics: start the root
activation synchronously as the awaited main chain, then drain the
microtask queue. -/
def planActionAsync (fuel : Nat) (reg : Registry) (st : Store) (inp : Inputs)
    (root : Nat) : AsyncState :=
  let s0 : AsyncState := ⟨st, inp, [], [], [], none, false, false⟩
  let r := syncStart fuel reg true s0 root []
  let s1 := (match r.2 with
    | SyncOut.completed => { r.1 with mainDone := true }
    | SyncOut.thrownE e => { r.1 with mainErr := some e }
    | SyncOut.parked => r.1
    | SyncOut.noFuel => { r.1 with fuelOut := true })
  runQueue fuel reg s1

/-- Fixture refuting C9: a sequential group whose first child is a call to an
inner group of two function leaves and whose second child is a function.
The plan run's un-awaited descent into the inner group interleaves: it
visits x1 (node 4), then the outer sibling (node 2), then x2 (node 5),
while executeAction visits 4, 5, 2. -/
def storeC9x : Store := fun j =>
  match j with
  | 0 => some (ActionNode.group (some "root") none [1, 2] none)
  | 1 => some (ActionNode.call none true "inner" none none)
  | 2 => some (ActionNode.func (some "after") (fun i => (i, PlanRes.ret "plan after"))
      (fun i => (i, FnRes.ok)) none)
  | 3 => some (ActionNode.group (some "inner") none [4, 5] none)
  | 4 => some (ActionNode.func (some "x1") (fun i => (i, PlanRes.ret "plan x1"))
      (fun i => (i, FnRes.ok)) none)
  | 5 => some (ActionNode.func (some "x2") (fun i => (i, PlanRes.ret "plan x2"))
      (fun i => (i, FnRes.ok)) none)
  | _ => none

/-- Registry for the C9 counterexample fixture. -/
def regC9x : Registry := [("inner", 3)]

/-- Modelled from the spec for the refinement comparison of the priority
resolver: rule 2 of section 4.3, reading the call target's priority, with the
amendment that a priority equal to 0 counts as unset. -/
def specTargetPriority (a : ActionNode) (reg : Registry) (st : Store) : Nat :=
  match a with
  | .call _ _ t _ _ =>
    (match (lookupReg reg t).bind st with
     | some ta =>
       (match ta.priority with
        | some q => if q = 0 then ActionPriority.P3 else q
        | none => ActionPriority.P3)
     | none => ActionPriority.P3)
  | _ => ActionPriority.P3

/-- Modelled from the spec for the refinement comparison of the priority
resolver, section 4.3, with the amendment forced by the code's truthiness
test: rule 1 applies only when the action's own priority is set and nonzero,
rule 2 only when the call target's priority is set and nonzero, rule 3
returns the default 3. -/
def specResolvePriority (a : ActionNode) (reg : Registry) (st : Store) : Nat :=
  match a.priority with
  | some p => if p = 0 then specTargetPriority a reg st else p
  | none => specTargetPriority a reg st

-- Concrete fixtures used by the claim theorems, their witnesses and
-- counterexamples.

/-- Fixture for C1: a sequential group whose two function children carry
priorities P4 and P1, declared in that order. -/
def storeC1 : Store := fun j =>
  match j with
  | 0 => some (ActionNode.group none none [1, 2] none)
  | 1 => some (ActionNode.func (some "a") (fun i => (i, PlanRes.ret "plan a"))
      (fun i => (i, FnRes.ok)) (some 4))
  | 2 => some (ActionNode.func (some "b") (fun i => (i, PlanRes.ret "plan b"))
      (fun i => (i, FnRes.ok)) (some 1))
  | _ => none

/-- Fixture for C2: a sequential group whose first child is a required call to
a name absent from the registry and whose second child is a function. -/
def storeC2 : Store := fun j =>
  match j with
  | 0 => some (ActionNode.group none none [1, 2] none)
  | 1 => some (ActionNode.call none true "missing" none none)
  | 2 => some (ActionNode.func (some "after") (fun i => (i, PlanRes.ret "plan after"))
      (fun i => (i, FnRes.ok)) none)
  | _ => none

/-- Fixture for C3: a call action whose own priority is P0 = 0. -/
def actC3 : ActionNode := ActionNode.call none true "t" none (some 0)

/-- Registry for C3 mapping the call target to node 0. -/
def regC3 : Registry := [("t", 0)]

/-- Heap for C3: the call target is a function with priority P5. -/
def stC3 : Store := fun j =>
  if j = 0 then
    some (ActionNode.func (some "t") (fun i => (i, PlanRes.ret "plan t"))
      (fun i => (i, FnRes.ok)) (some 5))
  else none

/-- Fixture for C4: node 1 is an optional call to a missing name, node 2 a
function sibling. -/
def storeC4 : Store := fun j =>
  match j with
  | 1 => some (ActionNode.call none false "absent" none none)
  | 2 => some (ActionNode.func (some "sib") (fun i => (i, PlanRes.ret "plan sib"))
      (fun i => (i, FnRes.ok)) none)
  | _ => none

/-- Fixture for C5: node 0 is a call with rename table mapping local.x to
caller.y, targeting the function at node 1, which records the value it
observes under local.x into the key probe. -/
def storeC5 : Store := fun j =>
  match j with
  | 0 => some (ActionNode.call none true "t" (some [("local.x", "caller.y")]) none)
  | 1 => some (ActionNode.func (some "t") (fun i => (i, PlanRes.ret "plan t"))
      (fun i => (setInput i "probe" (getInput i "local.x"), FnRes.ok)) none)
  | _ => none

/-- Registry for C5. -/
def regC5 : Registry := [("t", 1)]

/-- Fixture for C6: a sequential group whose first function child returns an
error Result from its execute callback and whose second child is a function. -/
def storeC6 : Store := fun j =>
  match j with
  | 0 => some (ActionNode.group none none [1, 2] none)
  | 1 => some (ActionNode.func (some "bad") (fun i => (i, PlanRes.ret "plan bad"))
      (fun i => (i, FnRes.err "boom")) none)
  | 2 => some (ActionNode.func (some "sib") (fun i => (i, PlanRes.ret "plan sib"))
      (fun i => (i, FnRes.ok)) none)
  | _ => none

/-- Fixture for C7: a shell action with a working directory and capture flags. -/
def storeC7 : Store := fun j =>
  if j = 0 then
    some (ActionNode.shell (some "build") "run the build" "npm run build"
      (some "./tab") (some false) (some true) (some true) none)
  else none

/-- Fixture for C8: a sequential group with function children of priorities P4
and P1 in declaration order, so that planning reorders the child array. -/
def storeC8 : Store := fun j =>
  match j with
  | 0 => some (ActionNode.group (some "root") none [1, 2] none)
  | 1 => some (ActionNode.func (some "x") (fun i => (i, PlanRes.ret "plan x"))
      (fun i => (i, FnRes.ok)) (some 4))
  | 2 => some (ActionNode.func (some "y") (fun i => (i, PlanRes.ret "plan y"))
      (fun i => (i, FnRes.ok)) (some 1))
  | _ => none

/-- Relation describing how planAction may change the heap: every node is
either untouched, or is a sequential (or mode-unset) group whose child array
has been replaced by its stable priority sort for the given key. -/
def StoreRel (key : Nat → Nat) (s t : Store) : Prop :=
  ∀ j, t j = s j ∨ ∃ nm m arr p,
    s j = some (ActionNode.group nm m arr p) ∧
    (m = none ∨ m = some Mode.sequential) ∧
    t j = some (ActionNode.group nm m (sortPrio key arr) p)

/-- Weaker shape relation: every node is untouched or is a group whose child
array was replaced by some other array, all other fields intact.  Resolved
priorities only depend on the heap through this shape. -/
def GroupShapeRel (s t : Store) : Prop :=
  ∀ j, t j = s j ∨ ∃ nm m arr arr2 p,
    s j = some (ActionNode.group nm m arr p) ∧
    t j = some (ActionNode.group nm m arr2 p)

/-- Successor node ids of one node: the children of a group, and the
registry-resolved target of a call.  These are exactly the edges both
walkers recurse along. -/
def succs (reg : Registry) : ActionNode → List Nat
  | .group _ _ children _ => children
  | .call _ _ targetAction _ _ => (lookupReg reg targetAction).toList
  | _ => []

/-- One recursion edge of the walkers over a given heap and registry. -/
def EdgeStep (reg : Registry) (st : Store) (i j : Nat) : Prop :=
  ∃ a, st i = some a ∧ j ∈ succs reg a

/-- A leaf node (shell or function) sits at id j in the heap. -/
def LeafAt (st : Store) (j : Nat) : Prop :=
  (∃ nm d c cw af co ce p, st j = some (ActionNode.shell nm d c cw af co ce p)) ∨
  (∃ nm pf ef p, st j = some (ActionNode.func nm pf ef p))

/-- A leaf node sits at id j whose execute callback never throws (a shell
leaf, or a function leaf whose callback returns a Result on every bag). -/
def ExecLeafOk (st : Store) (j : Nat) : Prop :=
  (∃ nm d c cw af co ce p, st j = some (ActionNode.shell nm d c cw af co ce p)) ∨
  (∃ nm pf ef p, st j = some (ActionNode.func nm pf ef p) ∧
    ∀ (i : Inputs) (e : String), (ef i).2 ≠ FnRes.thrown e)

/-- Fixture for C9: a sequential group whose children are a call (priority P4)
to a function target and a function of priority P1, so planning reorders
them before execution. -/
def storeC9 : Store := fun j =>
  match j with
  | 0 => some (ActionNode.group (some "root") none [1, 2] none)
  | 1 => some (ActionNode.call none true "leaf2" none (some 4))
  | 2 => some (ActionNode.func (some "leaf1") (fun i => (i, PlanRes.ret "plan leaf1"))
      (fun i => (i, FnRes.ok)) (some 1))
  | 3 => some (ActionNode.func (some "leaf2") (fun i => (i, PlanRes.ret "plan leaf2"))
      (fun i => (i, FnRes.ok)) none)
  | _ => none

/-- Registry for C9. -/
def regC9 : Registry := [("leaf2", 3)]

/-- Fixture for C10: an acyclic heap in which the group at 0 contains a
function and a call that resolves through the registry back to that
function. -/
def storeC10 : Store := fun j =>
  match j with
  | 0 => some (ActionNode.group none none [1, 2] none)
  | 1 => some (ActionNode.func (some "f") (fun i => (i, PlanRes.ret "plan f"))
      (fun i => (i, FnRes.ok)) none)
  | 2 => some (ActionNode.call none true "f" none none)
  | _ => none

/-- Registry for C10. -/
def regC10 : Registry := [("f", 1)]

/-- A topological rank certificate for the C10 fixture's call graph. -/
def rankC10 : Nat → Nat := fun j =>
  match j with
  | 0 => 2
  | 2 => 1
  | _ => 0

/-- Cyclic fixture: a required call whose registry target is itself, the
smallest cyclic call graph. -/
def storeCyc : Store := fun j =>
  if j = 0 then some (ActionNode.call (some "self") true "self" none none) else none

/-- Registry for the cyclic fixture, resolving the call back to itself. -/
def regCyc : Registry := [("self", 0)]

/-- Observation helper: the Result value returned by the execute callback of
the function node at id j when run on a given inputs bag (none when the node
is not a function). -/
def execResultAt (st : Store) (j : Nat) (inp : Inputs) : Option FnRes :=
  match st j with
  | some (.func _ _ ef _) => some (ef inp).2
  | _ => none

-- Facts about the inputs bag and the rename table.

theorem getInput_setInput (inp : Inputs) (k : String) (v : Val) :
    getInput (setInput inp k v) k = v := by
  induction inp with
  | nil => simp [setInput, getInput]
  | cons h rest ih =>
    obtain ⟨k', v'⟩ := h
    by_cases hk : k' = k
    · subst hk; simp [setInput, getInput]
    · simp [setInput, getInput, hk, ih]

theorem applyRenames_single (inp : Inputs) (tk sk : String) :
    getInput (applyRenames [(tk, sk)] inp) tk = getInput inp sk := by
  simp [applyRenames, List.foldl, getInput_setInput]

-- Facts about the priority resolver.

theorem truthy_eq_false_iff (o : Option Nat) :
    truthy o = false ↔ o = none ∨ o = some 0 := by
  cases o with
  | none => simp [truthy]
  | some p => simp [truthy]

theorem getActionPriority_not_truthy (a : ActionNode) (reg : Registry) (st : Store)
    (h : truthy a.priority = false) :
    getActionPriority a reg st = specTargetPriority a reg st := by
  unfold getActionPriority specTargetPriority
  rw [h]
  simp only [Bool.false_eq_true, if_false]
  cases a with
  | call nm rq t rn p =>
    dsimp only
    cases hb : (lookupReg reg t).bind st with
    | none => rfl
    | some ta =>
      cases hq : ta.priority with
      | none => simp [truthy, hq]
      | some q =>
        by_cases q0 : q = 0
        · subst q0; simp [truthy, hq]
        · simp [truthy, hq, q0]
  | group nm m acts p => simp
  | shell nm d c cw af co ce p => simp
  | func nm pf ef p => simp

theorem specTargetPriority_le (a : ActionNode) (reg : Registry) (st : Store)
    (hs : ∀ j b q, st j = some b → b.priority = some q → q ≤ 6) :
    specTargetPriority a reg st ≤ 6 := by
  unfold specTargetPriority
  cases a with
  | call nm rq t rn p =>
    dsimp only
    cases hb : (lookupReg reg t).bind st with
    | none => simp [ActionPriority.P3]
    | some ta =>
      rcases Option.bind_eq_some.mp hb with ⟨tid, hreg, hst⟩
      cases hq : ta.priority with
      | none => simp [hq, ActionPriority.P3]
      | some q =>
        by_cases q0 : q = 0
        · subst q0; simp [hq, ActionPriority.P3]
        · simpa [hq, q0] using hs tid ta q hst hq
  | group nm m acts p => simp [ActionPriority.P3]
  | shell nm d c cw af co ce p => simp [ActionPriority.P3]
  | func nm pf ef p => simp [ActionPriority.P3]

theorem truthy_eq_true_iff (o : Option Nat) :
    truthy o = true ↔ ∃ p, o = some p ∧ p ≠ 0 := by
  cases o with
  | none => simp [truthy]
  | some p => simp [truthy]

/-- C3, counterexample: the claim says the resolver returns the action's own
priority whenever it is set, including P0 = 0; on a call action whose own
priority is P0 the source's truthiness test skips it and returns the call
target's priority 5 instead. -/
theorem C3_counterexample :
    actC3.priority = some ActionPriority.P0 ∧
    getActionPriority actC3 regC3 stC3 = 5 ∧ (5 : Nat) ≠ ActionPriority.P0 :=
  ⟨rfl, rfl, by decide⟩

/-- C3, amended: the resolver returns the action's own priority when it is set
and nonzero; a priority of P0 = 0 is treated as unset by the truthiness test
and falls through to the call target's set-and-nonzero priority, else the
default P3; the refinement against the spec's three rules so amended holds,
and the result lies in the range P0..P6 when all stored priorities do. -/
theorem C3_priority_resolver (a : ActionNode) (reg : Registry) (st : Store)
    (ha : ∀ p, a.priority = some p → p ≤ 6)
    (hs : ∀ j b q, st j = some b → b.priority = some q → q ≤ 6) :
    getActionPriority a reg st = specResolvePriority a reg st ∧
    ActionPriority.P0 ≤ getActionPriority a reg st ∧
    getActionPriority a reg st ≤ ActionPriority.P6 := by
  have heq : getActionPriority a reg st = specResolvePriority a reg st := by
    cases htr : truthy a.priority with
    | false =>
      rw [getActionPriority_not_truthy a reg st htr]
      unfold specResolvePriority
      rcases (truthy_eq_false_iff _).mp htr with h0 | h0 <;> simp [h0]
    | true =>
      obtain ⟨p, hp, hp0⟩ := (truthy_eq_true_iff _).mp htr
      unfold getActionPriority specResolvePriority
      simp [hp, truthy, hp0]
  refine ⟨heq, Nat.zero_le _, ?_⟩
  cases htr : truthy a.priority with
  | false =>
    rw [getActionPriority_not_truthy a reg st htr]
    exact specTargetPriority_le a reg st hs
  | true =>
    obtain ⟨p, hp, hp0⟩ := (truthy_eq_true_iff _).mp htr
    have hb := ha p hp
    unfold getActionPriority
    simpa [hp, truthy, hp0] using hb

/-- C3, witness: the amended resolver theorem applied to the C3 fixture. -/
theorem C3_witness :
    getActionPriority actC3 regC3 stC3 = specResolvePriority actC3 regC3 stC3 ∧
    ActionPriority.P0 ≤ getActionPriority actC3 regC3 stC3 ∧
    getActionPriority actC3 regC3 stC3 ≤ ActionPriority.P6 :=
  C3_priority_resolver actC3 regC3 stC3
    (by intro p h; simp [actC3, ActionNode.priority] at h; omega)
    (by
      intro j b q hj hq
      unfold stC3 at hj
      split at hj
      · cases hj; simp [ActionNode.priority] at hq; omega
      · cases hj)

/-- C4: an optional call (required = false) to a name absent from the registry
is a no-op in both walkers: no error is reported, the heap and the inputs bag
are untouched, nothing is logged or visited, and in a sequence of siblings the
remaining siblings run exactly as if the call were not there. -/
theorem C4_optional_call_noop (fuel : Nat) (reg : Registry) (st : Store) (inp : Inputs)
    (cid : Nat) (nm : Option String) (t : String) (rn : Option (List (String × String)))
    (p : Option Nat) (post : List Nat)
    (hnode : st cid = some (ActionNode.call nm false t rn p))
    (hmiss : lookupReg reg t = none) :
    planAction (fuel + 1) reg st inp cid = ⟨st, inp, [], [], none⟩ ∧
    executeAction (fuel + 1) reg st inp cid = ⟨st, inp, [], [], none⟩ ∧
    seqRun (executeAction (fuel + 1) reg) st inp (cid :: post) =
      seqRun (executeAction (fuel + 1) reg) st inp post ∧
    seqRun (planAction (fuel + 1) reg) st inp (cid :: post) =
      seqRun (planAction (fuel + 1) reg) st inp post := by
  have hp : planAction (fuel + 1) reg st inp cid = ⟨st, inp, [], [], none⟩ := by
    simp [planAction, planActionBody, hnode, hmiss]
  have he : executeAction (fuel + 1) reg st inp cid = ⟨st, inp, [], [], none⟩ := by
    simp [executeAction, executeActionBody, hnode, hmiss]
  refine ⟨hp, he, ?_, ?_⟩
  · simp [seqRun, he]
  · simp [seqRun, hp]

/-- C4, witness: the no-op optional call of the C4 fixture, with the function
sibling at node 2 as the remaining sequence. -/
theorem C4_witness :
    planAction 1 [] storeC4 [] 1 = ⟨storeC4, [], [], [], none⟩ ∧
    executeAction 1 [] storeC4 [] 1 = ⟨storeC4, [], [], [], none⟩ ∧
    seqRun (executeAction 1 []) storeC4 [] (1 :: [2]) =
      seqRun (executeAction 1 []) storeC4 [] [2] ∧
    seqRun (planAction 1 []) storeC4 [] (1 :: [2]) =
      seqRun (planAction 1 []) storeC4 [] [2] :=
  C4_optional_call_noop 0 [] storeC4 [] 1 none "absent" none none [2] rfl rfl

/-- C5: a call action whose target resolves first applies its rename table to
the shared inputs bag, copying inputs[source] into inputs[target] for each
entry, and then descends into the target with that renamed bag; in
particular, with table local.x maps-to caller.y and inputs[caller.y] = 42,
the target observes inputs[local.x] = 42. -/
theorem C5_rename_before_descent (fuel : Nat) (reg : Registry) (st : Store) (inp : Inputs)
    (cid tid : Nat) (nm : Option String) (req : Bool) (t : String)
    (rn : List (String × String)) (p : Option Nat)
    (hnode : st cid = some (ActionNode.call nm req t (some rn) p))
    (hreg : lookupReg reg t = some tid) :
    executeAction (fuel + 1) reg st inp cid =
      executeAction fuel reg st (applyRenames rn inp) tid ∧
    planAction (fuel + 1) reg st inp cid =
      planAction fuel reg st (applyRenames rn inp) tid ∧
    (∀ (inp2 : Inputs) (tk sk : String),
      getInput (applyRenames [(tk, sk)] inp2) tk = getInput inp2 sk) ∧
    (getInput inp "caller.y" = Val.num 42 →
      getInput (applyRenames [("local.x", "caller.y")] inp) "local.x" = Val.num 42) := by
  refine ⟨?_, ?_, ?_, ?_⟩
  · simp [executeAction, executeActionBody, hnode, hreg]
  · simp [planAction, planActionBody, hnode, hreg]
  · intro inp2 tk sk; exact applyRenames_single inp2 tk sk
  · intro h; rw [applyRenames_single]; exact h

/-- C5, witness: the rename theorem applied to the C5 fixture, whose target
function records the value it observes under local.x. -/
theorem C5_witness :
    getInput (applyRenames [("local.x", "caller.y")] [("caller.y", Val.num 42)])
      "local.x" = Val.num 42 ∧
    executeAction 2 regC5 storeC5 [("caller.y", Val.num 42)] 0 =
      executeAction 1 regC5 storeC5
        (applyRenames [("local.x", "caller.y")] [("caller.y", Val.num 42)]) 1 :=
  ⟨(C5_rename_before_descent 1 regC5 storeC5 [("caller.y", Val.num 42)] 0 1 none true "t"
      [("local.x", "caller.y")] none rfl rfl).2.2.2 rfl,
   (C5_rename_before_descent 1 regC5 storeC5 [("caller.y", Val.num 42)] 0 1 none true "t"
      [("local.x", "caller.y")] none rfl rfl).1⟩

/-- C6, counterexample: in the C6 fixture the first child's execute callback
returns an error Result, yet executeAction reports success (err = none) and
still runs the second sibling (trace [1, 2]); the claim that the Execute
Walker propagates a returned error Result and aborts the group is false. -/
theorem C6_counterexample :
    execResultAt storeC6 1 [] = some (FnRes.err "boom") ∧
    (executeAction 3 [] storeC6 [] 0).err = none ∧
    (executeAction 3 [] storeC6 [] 0).trace = [1, 2] :=
  ⟨rfl, rfl, rfl⟩

/-- C6, amended: executeAction discards the Result value returned by a
function's execute callback, so an error Result is not propagated and does
not abort the enclosing sequential group (the remaining siblings still run);
only an exception thrown by the callback propagates and aborts. -/
theorem C6_function_result_ignored (fuel : Nat) (reg : Registry) (st : Store)
    (inp : Inputs) (fid : Nat) (nm : Option String)
    (pf : Inputs → Inputs × PlanRes) (ef : Inputs → Inputs × FnRes) (p : Option Nat)
    (post : List Nat)
    (hnode : st fid = some (ActionNode.func nm pf ef p)) :
    (∀ e, (ef inp).2 = FnRes.err e →
      executeAction (fuel + 1) reg st inp fid =
        ⟨st, (ef inp).1, ["execute:" ++ showName nm], [fid], none⟩) ∧
    (∀ e, (ef inp).2 = FnRes.thrown e →
      executeAction (fuel + 1) reg st inp fid =
        ⟨st, (ef inp).1, ["execute:" ++ showName nm], [fid], some (WErr.thrown e)⟩) ∧
    (∀ e, (ef inp).2 = FnRes.err e →
      seqRun (executeAction (fuel + 1) reg) st inp (fid :: post) =
        (let r2 := seqRun (executeAction (fuel + 1) reg) st (ef inp).1 post
         ⟨r2.store, r2.inputs, ("execute:" ++ showName nm) :: r2.log,
          fid :: r2.trace, r2.err⟩)) := by
  refine ⟨?_, ?_, ?_⟩
  · intro e he
    simp [executeAction, executeActionBody, hnode, he]
  · intro e he
    simp [executeAction, executeActionBody, hnode, he]
  · intro e he
    have hstep : executeAction (fuel + 1) reg st inp fid =
        ⟨st, (ef inp).1, ["execute:" ++ showName nm], [fid], none⟩ := by
      simp [executeAction, executeActionBody, hnode, he]
    simp [seqRun, hstep]

/-- C6, witness: the amended theorem applied to the C6 fixture, whose first
child returns an error Result. -/
theorem C6_witness :
    executeAction 2 [] storeC6 [] 1 =
      ⟨storeC6, [], ["execute:bad"], [1], none⟩ ∧
    seqRun (executeAction 2 []) storeC6 [] (1 :: [2]) =
      (let r2 := seqRun (executeAction 2 []) storeC6 [] [2]
       ⟨r2.store, r2.inputs, "execute:bad" :: r2.log, 1 :: r2.trace, r2.err⟩) :=
  ⟨(C6_function_result_ignored 1 [] storeC6 [] 1 (some "bad")
      (fun i => (i, PlanRes.ret "plan bad")) (fun i => (i, FnRes.err "boom")) none
      [2] rfl).1 "boom" rfl,
   (C6_function_result_ignored 1 [] storeC6 [] 1 (some "bad")
      (fun i => (i, PlanRes.ret "plan bad")) (fun i => (i, FnRes.err "boom")) none
      [2] rfl).2.2 "boom" rfl⟩

/-- C7: executeAction does not run a shell action's command at all: whatever
the command, working directory and capture flags are, the walker only prints
the literal command and reports success; nothing executes, no output is
captured, and no exit status can be propagated.  This contradicts the
documented contract of ShellAction (execute a shell script). -/
theorem C7_shell_not_executed (fuel : Nat) (reg : Registry) (st : Store) (inp : Inputs)
    (sid : Nat) (nm : Option String) (d cmd : String) (cw : Option String)
    (af co ce : Option Bool) (p : Option Nat)
    (hnode : st sid = some (ActionNode.shell nm d cmd cw af co ce p)) :
    executeAction (fuel + 1) reg st inp sid =
      ⟨st, inp, ["shell:" ++ cmd], [sid], none⟩ := by
  simp [executeAction, executeActionBody, hnode]

/-- C7, witness: the shell fixture with cwd and capture flags set is reduced
to a single log line and success. -/
theorem C7_witness :
    executeAction 1 [] storeC7 [] 0 =
      ⟨storeC7, [], ["shell:npm run build"], [0], none⟩ :=
  C7_shell_not_executed 0 [] storeC7 [] 0 (some "build") "run the build"
    "npm run build" (some "./tab") (some false) (some true) (some true) none rfl

-- Facts about the stable priority sort.

theorem mem_insPrio (key : Nat → Nat) (x a : Nat) (l : List Nat) :
    a ∈ insPrio key x l ↔ a = x ∨ a ∈ l := by
  induction l with
  | nil => simp [insPrio]
  | cons y ys ih =>
    by_cases h : key x ≤ key y
    · simp [insPrio, h]
    · simp [insPrio, h, ih]
      tauto

theorem mem_sortPrio (key : Nat → Nat) (a : Nat) (l : List Nat) :
    a ∈ sortPrio key l ↔ a ∈ l := by
  induction l with
  | nil => simp [sortPrio]
  | cons x xs ih => simp [sortPrio, mem_insPrio, ih]

theorem insPrio_pairwise (key : Nat → Nat) (x : Nat) (l : List Nat)
    (h : l.Pairwise (fun a b => key a ≤ key b)) :
    (insPrio key x l).Pairwise (fun a b => key a ≤ key b) := by
  induction l with
  | nil => simp [insPrio]
  | cons y ys ih =>
    by_cases hxy : key x ≤ key y
    · rw [insPrio, if_pos hxy]
      refine List.Pairwise.cons ?_ h
      intro z hz
      rcases List.mem_cons.mp hz with rfl | hz
      · exact hxy
      · exact le_trans hxy (List.rel_of_pairwise_cons h hz)
    · rw [insPrio, if_neg hxy]
      have hyx : key y ≤ key x := le_of_not_le hxy
      refine List.Pairwise.cons ?_ (ih (List.Pairwise.sublist (List.sublist_cons_self y ys) h))
      intro z hz
      rcases (mem_insPrio key x z ys).mp hz with rfl | hz
      · exact hyx
      · exact List.rel_of_pairwise_cons h hz

theorem sortPrio_pairwise (key : Nat → Nat) (l : List Nat) :
    (sortPrio key l).Pairwise (fun a b => key a ≤ key b) := by
  induction l with
  | nil => simp [sortPrio]
  | cons x xs ih => exact insPrio_pairwise key x _ ih

theorem sortPrio_of_pairwise (key : Nat → Nat) (l : List Nat)
    (h : l.Pairwise (fun a b => key a ≤ key b)) : sortPrio key l = l := by
  induction l with
  | nil => rfl
  | cons x xs ih =>
    rw [sortPrio, ih (List.Pairwise.sublist (List.sublist_cons_self x xs) h)]
    cases xs with
    | nil => rfl
    | cons y ys =>
      have hxy : key x ≤ key y :=
        List.rel_of_pairwise_cons h (List.mem_cons_self y ys)
      rw [insPrio, if_pos hxy]

theorem sortPrio_idem (key : Nat → Nat) (l : List Nat) :
    sortPrio key (sortPrio key l) = sortPrio key l :=
  sortPrio_of_pairwise key _ (sortPrio_pairwise key l)

theorem filter_insPrio_pos (key : Nat → Nat) (k x : Nat) (l : List Nat)
    (h : key x = k) :
    (insPrio key x l).filter (fun a => key a == k) =
      x :: l.filter (fun a => key a == k) := by
  induction l with
  | nil => simp [insPrio, List.filter, h]
  | cons y ys ih =>
    by_cases hxy : key x ≤ key y
    · rw [insPrio, if_pos hxy]
      simp [List.filter, h]
    · have hlt : key y < key x := lt_of_not_le hxy
      have hyk : (key y == k) = false := by
        subst h
        simp [Nat.ne_of_lt hlt]
      rw [insPrio, if_neg hxy]
      simp [List.filter, hyk, ih]

theorem filter_insPrio_neg (key : Nat → Nat) (k x : Nat) (l : List Nat)
    (h : key x ≠ k) :
    (insPrio key x l).filter (fun a => key a == k) =
      l.filter (fun a => key a == k) := by
  have hb : (key x == k) = false := beq_eq_false_iff_ne.mpr h
  induction l with
  | nil => simp [insPrio, List.filter, hb]
  | cons y ys ih =>
    by_cases hxy : key x ≤ key y
    · rw [insPrio, if_pos hxy]
      simp [List.filter, hb]
    · rw [insPrio, if_neg hxy]
      cases hyk : (key y == k) <;> simp [List.filter, hyk, ih]

theorem filter_sortPrio (key : Nat → Nat) (k : Nat) (l : List Nat) :
    (sortPrio key l).filter (fun a => key a == k) =
      l.filter (fun a => key a == k) := by
  induction l with
  | nil => rfl
  | cons x xs ih =>
    by_cases hx : key x = k
    · rw [sortPrio, filter_insPrio_pos key k x _ hx, ih]
      simp [List.filter, hx]
    · have hb : (key x == k) = false := beq_eq_false_iff_ne.mpr hx
      rw [sortPrio, filter_insPrio_neg key k x _ hx, ih]
      simp [List.filter, hb]

-- The Execute Walker never writes to the heap.

theorem seqRun_store (walk : Store → Inputs → Nat → WRes)
    (h : ∀ st inp id, (walk st inp id).store = st) :
    ∀ ids st inp, (seqRun walk st inp ids).store = st := by
  intro ids
  induction ids with
  | nil => intro st inp; rfl
  | cons id rest ih =>
    intro st inp
    simp only [seqRun]
    cases herr : (walk st inp id).err with
    | some e => simp [h]
    | none => simp [ih, h]

theorem executeActionBody_store (recur : Store → Inputs → Nat → WRes) (reg : Registry)
    (hrec : ∀ st inp id, (recur st inp id).store = st) :
    ∀ st inp id, (executeActionBody recur reg st inp id).store = st := by
  intro st inp id
  unfold executeActionBody
  cases hnode : st id with
  | none => rfl
  | some a =>
    cases a with
    | func nm pf ef p =>
      dsimp only
      cases (ef inp).2 <;> rfl
    | shell nm d c cw af co ce p => rfl
    | call nm req tgt rn p =>
      dsimp only
      cases hl : lookupReg reg tgt with
      | none => cases req <;> rfl
      | some tid => exact hrec st _ tid
    | group nm m children p => exact seqRun_store recur hrec children st inp

theorem executeAction_store :
    ∀ fuel reg st inp id, (executeAction fuel reg st inp id).store = st := by
  intro fuel
  induction fuel with
  | zero => intro reg st inp id; rfl
  | succ fuel ih =>
    intro reg st inp id
    simp only [executeAction]
    exact executeActionBody_store (executeAction fuel reg) reg
      (fun st' inp' id' => ih reg st' inp' id') st inp id

-- Resolved priorities only depend on the heap through priorities.

theorem GroupShapeRel_priority (s t : Store) (h : GroupShapeRel s t) (j : Nat) :
    (t j).map ActionNode.priority = (s j).map ActionNode.priority := by
  rcases h j with he | ⟨nm, m, arr, arr2, p, hs, ht⟩
  · rw [he]
  · rw [hs, ht]; rfl

theorem StoreRel_GroupShape (key : Nat → Nat) (s t : Store)
    (h : StoreRel key s t) : GroupShapeRel s t := by
  intro j
  rcases h j with he | ⟨nm, m, arr, p, hs, hm, ht⟩
  · exact Or.inl he
  · exact Or.inr ⟨nm, m, arr, sortPrio key arr, p, hs, ht⟩

theorem updateStore_GroupShape (st : Store) (id : Nat)
    (nm : Option String) (m : Option Mode) (arr arr2 : List Nat) (p : Option Nat)
    (hnode : st id = some (ActionNode.group nm m arr p)) :
    GroupShapeRel st (updateStore st id (ActionNode.group nm m arr2 p)) := by
  intro j
  by_cases hj : j = id
  · subst hj
    exact Or.inr ⟨nm, m, arr, arr2, p, hnode, by simp [updateStore]⟩
  · left
    simp [updateStore, hj]

theorem getActionPriority_congr (reg : Registry) (s u : Store)
    (hpr : ∀ j, (u j).map ActionNode.priority = (s j).map ActionNode.priority)
    (a : ActionNode) : getActionPriority a reg u = getActionPriority a reg s := by
  unfold getActionPriority
  cases a with
  | call nm req tgt rn p =>
    dsimp only
    cases hl : lookupReg reg tgt with
    | none => rfl
    | some tid =>
      have hj := hpr tid
      cases hsu : u tid with
      | none =>
        rw [hsu] at hj
        have hss : s tid = none := Option.map_eq_none'.mp hj.symm
        simp [hsu, hss]
      | some c =>
        rw [hsu] at hj
        cases hss : s tid with
        | none => rw [hss] at hj; simp at hj
        | some b =>
          rw [hss] at hj
          simp only [Option.map_some'] at hj
          have hcb : c.priority = b.priority := Option.some.inj hj
          simp [hsu, hss, hcb]
  | group nm m arr p => rfl
  | shell nm d c cw af co ce p => rfl
  | func nm pf ef p => rfl

theorem priorKey_eq_of_GroupShape (reg : Registry) (s u : Store)
    (h : GroupShapeRel s u) : priorKey reg u = priorKey reg s := by
  funext cid
  unfold priorKey
  have hpr := GroupShapeRel_priority s u h
  rcases h cid with he | ⟨nm, m, arr, arr2, p, hs, hu⟩
  · rw [he]
    cases hcs : s cid with
    | none => rfl
    | some a => exact getActionPriority_congr reg s u hpr a
  · rw [hs, hu]
    rfl

-- StoreRel is reflexive and transitive (using idempotence of the sort).

theorem StoreRel_refl (key : Nat → Nat) (s : Store) : StoreRel key s s :=
  fun _ => Or.inl rfl

theorem StoreRel_trans (key : Nat → Nat) (s t u : Store)
    (h1 : StoreRel key s t) (h2 : StoreRel key t u) : StoreRel key s u := by
  intro j
  rcases h1 j with he1 | ⟨nm, m, arr, p, hs, hm, ht⟩
  · rcases h2 j with he2 | ⟨nm, m, arr, p, ht, hm, hu⟩
    · exact Or.inl (he2.trans he1)
    · right
      refine ⟨nm, m, arr, p, ?_, hm, hu⟩
      rw [← he1, ht]
  · rcases h2 j with he2 | ⟨nm2, m2, arr2, p2, ht2, hm2, hu⟩
    · right
      exact ⟨nm, m, arr, p, hs, hm, he2.trans ht⟩
    · right
      refine ⟨nm, m, arr, p, hs, hm, ?_⟩
      rw [ht] at ht2
      have h3 := Option.some.inj ht2
      cases h3
      rw [hu, sortPrio_idem]

-- The Plan Walker only replaces sequential groups' child arrays by their
-- priority-sorted versions (Lemma A), and hence preserves resolved priorities.

theorem seqRun_plan_storeRel (fuel : Nat) (reg : Registry)
    (H : ∀ st inp id, StoreRel (priorKey reg st) st (planAction fuel reg st inp id).store) :
    ∀ ids st inp,
      StoreRel (priorKey reg st) st (seqRun (planAction fuel reg) st inp ids).store := by
  intro ids
  induction ids with
  | nil => intro st inp; exact StoreRel_refl _ _
  | cons id rest ih =>
    intro st inp
    simp only [seqRun]
    cases herr : (planAction fuel reg st inp id).err with
    | some e => simpa using H st inp id
    | none =>
      have h1 := H st inp id
      have h2 := ih (planAction fuel reg st inp id).store (planAction fuel reg st inp id).inputs
      have hk : priorKey reg (planAction fuel reg st inp id).store = priorKey reg st :=
        priorKey_eq_of_GroupShape reg st _ (StoreRel_GroupShape _ _ _ h1)
      rw [hk] at h2
      simpa using StoreRel_trans _ st _ _ h1 h2

theorem planAction_storeRel :
    ∀ fuel reg st inp id,
      StoreRel (priorKey reg st) st (planAction fuel reg st inp id).store := by
  intro fuel
  induction fuel with
  | zero => intro reg st inp id; exact StoreRel_refl _ _
  | succ fuel ih =>
    intro reg st inp id
    simp only [planAction]
    unfold planActionBody
    cases hnode : st id with
    | none => exact StoreRel_refl _ _
    | some a =>
      cases a with
      | func nm pf ef p =>
        dsimp only
        cases (pf inp).2 <;> exact StoreRel_refl _ _
      | shell nm d c cw af co ce p => exact StoreRel_refl _ _
      | call nm req tgt rn p =>
        dsimp only
        cases hl : lookupReg reg tgt with
        | none => cases req <;> exact StoreRel_refl _ _
        | some tid => exact ih reg st _ tid
      | group nm m children p =>
        dsimp only
        by_cases hm : (m = none ∨ m = some Mode.sequential)
        · rw [if_pos hm]
          have h1 : StoreRel (priorKey reg st) st
              (updateStore st id
                (ActionNode.group nm m (sortPrio (priorKey reg st) children) p)) := by
            intro j
            by_cases hj : j = id
            · subst hj
              exact Or.inr ⟨nm, m, children, p, hnode, hm, by simp [updateStore]⟩
            · left; simp [updateStore, hj]
          have h2 := seqRun_plan_storeRel fuel reg
            (fun st' inp' id' => ih reg st' inp' id')
            (sortPrio (priorKey reg st) children)
            (updateStore st id
              (ActionNode.group nm m (sortPrio (priorKey reg st) children) p)) inp
          have hk : priorKey reg
              (updateStore st id
                (ActionNode.group nm m (sortPrio (priorKey reg st) children) p)) =
              priorKey reg st :=
            priorKey_eq_of_GroupShape reg st _
              (updateStore_GroupShape st id nm m children _ p hnode)
          rw [hk] at h2
          exact StoreRel_trans _ st _ _ h1 h2
        · rw [if_neg hm]
          exact seqRun_plan_storeRel fuel reg
            (fun st' inp' id' => ih reg st' inp' id') children st inp

theorem planAction_priorKey (fuel : Nat) (reg : Registry) (st : Store)
    (inp : Inputs) (id : Nat) :
    priorKey reg (planAction fuel reg st inp id).store = priorKey reg st :=
  priorKey_eq_of_GroupShape reg st _
    (StoreRel_GroupShape _ _ _ (planAction_storeRel fuel reg st inp id))

theorem seqRun_plan_priorKey (fuel : Nat) (reg : Registry) (ids : List Nat)
    (st : Store) (inp : Inputs) :
    priorKey reg (seqRun (planAction fuel reg) st inp ids).store = priorKey reg st :=
  priorKey_eq_of_GroupShape reg st _
    (StoreRel_GroupShape _ _ _
      (seqRun_plan_storeRel fuel reg
        (fun st' inp' id' => planAction_storeRel fuel reg st' inp' id') ids st inp))

theorem StoreRel_eq_of_ne_group (key : Nat → Nat) (s t : Store)
    (h : StoreRel key s t) (j : Nat) (a : ActionNode) (hj : s j = some a)
    (ha : ∀ nm m arr p, a ≠ ActionNode.group nm m arr p) : t j = some a := by
  rcases h j with he | ⟨nm, m, arr, p, hs, hm, ht⟩
  · rw [he, hj]
  · rw [hj] at hs
    exact absurd (Option.some.inj hs) (ha nm m arr p)

/-- C2, counterexample: a required call to a missing target makes both walkers
terminate with a thrown Error (the WErr.thrown outcome models a JavaScript
exception propagating out of the recursion); the walkers return no
success/failure result value, so the claim that the failure is delivered as
an explicit result value rather than an exception is false. -/
theorem C2_counterexample :
    (executeAction 3 [] storeC2 [] 0).err = some (WErr.thrown "action not exist: missing") ∧
    (planAction 3 [] storeC2 [] 0).err = some (WErr.thrown "targetAction not exist: missing") :=
  ⟨rfl, rfl⟩

/-- C2, amended: a required call to a name absent from the registry makes both
walkers fail immediately by throwing an Error that propagates out of the
enclosing sequence: the subsequent siblings are not visited, nothing is
logged, heap and inputs are untouched, and the failure reaches the caller as
the thrown exception, not as a returned result value. -/
theorem C2_required_call_aborts (fuel : Nat) (reg : Registry) (st : Store) (inp : Inputs)
    (cid : Nat) (nm : Option String) (t : String) (rn : Option (List (String × String)))
    (p : Option Nat) (post : List Nat)
    (hnode : st cid = some (ActionNode.call nm true t rn p))
    (hmiss : lookupReg reg t = none) :
    seqRun (executeAction (fuel + 1) reg) st inp (cid :: post) =
      ⟨st, inp, [], [], some (WErr.thrown ("action not exist: " ++ t))⟩ ∧
    seqRun (planAction (fuel + 1) reg) st inp (cid :: post) =
      ⟨st, inp, [], [], some (WErr.thrown ("targetAction not exist: " ++ t))⟩ := by
  have he : executeAction (fuel + 1) reg st inp cid =
      ⟨st, inp, [], [], some (WErr.thrown ("action not exist: " ++ t))⟩ := by
    simp [executeAction, executeActionBody, hnode, hmiss]
  have hp : planAction (fuel + 1) reg st inp cid =
      ⟨st, inp, [], [], some (WErr.thrown ("targetAction not exist: " ++ t))⟩ := by
    simp [planAction, planActionBody, hnode, hmiss]
  constructor
  · simp [seqRun, he]
  · simp [seqRun, hp]

/-- C2, witness: the abort theorem applied to the C2 fixture, with the
function sibling at node 2 unvisited. -/
theorem C2_witness :
    seqRun (executeAction 1 []) storeC2 [] (1 :: [2]) =
      ⟨storeC2, [], [], [], some (WErr.thrown ("action not exist: " ++ "missing"))⟩ ∧
    seqRun (planAction 1 []) storeC2 [] (1 :: [2]) =
      ⟨storeC2, [], [], [], some (WErr.thrown ("targetAction not exist: " ++ "missing"))⟩ :=
  C2_required_call_aborts 0 [] storeC2 [] 1 none "missing" none none [2] rfl rfl

/-- C8, counterexample: planning the C8 fixture reorders the actions array of
the sequential group node in place (from declaration order [1, 2] with
priorities P4, P1 to sorted order [2, 1]), so Action nodes are not left
unchanged by the Plan Walker. -/
theorem C8_counterexample :
    groupActions (storeC8 0) = some [1, 2] ∧
    groupActions ((planAction 3 [] storeC8 [] 0).store 0) = some [2, 1] :=
  ⟨rfl, rfl⟩

/-- C8, amended: executeAction never modifies any Action node (the heap it
returns is the one it was given); planAction's only mutation is replacing the
actions array of visited sequential (or mode-unset) groups by its stable
priority-sorted permutation, every other field and node being left unchanged;
beyond that, traversal mutates only the inputs bag. -/
theorem C8_immutability (fuel : Nat) (reg : Registry) (st : Store) (inp : Inputs)
    (id : Nat) :
    (executeAction fuel reg st inp id).store = st ∧
    StoreRel (priorKey reg st) st (planAction fuel reg st inp id).store :=
  ⟨executeAction_store fuel reg st inp id, planAction_storeRel fuel reg st inp id⟩

-- Simulation between the Plan Walker and a subsequent Execute Walker run on
-- the heap the Plan Walker produced: both visit the same leaves in the same
-- order.

theorem simSeq_of_simNode (fuel : Nat) (reg : Registry)
    (H : ∀ st inp id stx inpx,
      StoreRel (priorKey reg st) (planAction fuel reg st inp id).store stx →
      (planAction fuel reg st inp id).err = none →
      (executeAction fuel reg stx inpx id).err = none →
      (executeAction fuel reg stx inpx id).trace = (planAction fuel reg st inp id).trace) :
    ∀ ids st inp stx inpx,
      StoreRel (priorKey reg st) (seqRun (planAction fuel reg) st inp ids).store stx →
      (seqRun (planAction fuel reg) st inp ids).err = none →
      (seqRun (executeAction fuel reg) stx inpx ids).err = none →
      (seqRun (executeAction fuel reg) stx inpx ids).trace =
        (seqRun (planAction fuel reg) st inp ids).trace := by
  intro ids
  induction ids with
  | nil => intro st inp stx inpx _ _ _; rfl
  | cons id rest ih =>
    intro st inp stx inpx hrel hperr hxerr
    cases hpe : (planAction fuel reg st inp id).err with
    | some e => simp [seqRun, hpe] at hperr
    | none =>
      cases hxe : (executeAction fuel reg stx inpx id).err with
      | some e => simp [seqRun, hxe] at hxerr
      | none =>
        simp only [seqRun, hpe, hxe] at hrel hperr hxerr ⊢
        have hxstore : (executeAction fuel reg stx inpx id).store = stx :=
          executeAction_store fuel reg stx inpx id
        rw [hxstore] at hxerr ⊢
        have hA2 : StoreRel (priorKey reg st)
            (planAction fuel reg st inp id).store
            (seqRun (planAction fuel reg) (planAction fuel reg st inp id).store
              (planAction fuel reg st inp id).inputs rest).store := by
          have h0 := seqRun_plan_storeRel fuel reg
            (fun st' inp' id' => planAction_storeRel fuel reg st' inp' id') rest
            (planAction fuel reg st inp id).store (planAction fuel reg st inp id).inputs
          rwa [planAction_priorKey] at h0
        have hrel1 : StoreRel (priorKey reg st) (planAction fuel reg st inp id).store stx :=
          StoreRel_trans _ _ _ _ hA2 hrel
        have htr1 := H st inp id stx inpx hrel1 hpe hxe
        have hrel2 : StoreRel (priorKey reg (planAction fuel reg st inp id).store)
            (seqRun (planAction fuel reg) (planAction fuel reg st inp id).store
              (planAction fuel reg st inp id).inputs rest).store stx := by
          rw [planAction_priorKey]
          exact hrel
        have htr2 := ih (planAction fuel reg st inp id).store
          (planAction fuel reg st inp id).inputs stx
          (executeAction fuel reg stx inpx id).inputs hrel2 hperr hxerr
        rw [htr1, htr2]

theorem planExec_trace_sim :
    ∀ fuel reg st inp id stx inpx,
      StoreRel (priorKey reg st) (planAction fuel reg st inp id).store stx →
      (planAction fuel reg st inp id).err = none →
      (executeAction fuel reg stx inpx id).err = none →
      (executeAction fuel reg stx inpx id).trace = (planAction fuel reg st inp id).trace := by
  intro fuel
  induction fuel with
  | zero =>
    intro reg st inp id stx inpx hrel hperr hxerr
    simp [planAction] at hperr
  | succ fuel ih =>
    intro reg st inp id stx inpx hrel hperr hxerr
    cases hnode : st id with
    | none =>
      have hbad : (planAction (fuel + 1) reg st inp id).err = some WErr.badRef := by
        simp [planAction, planActionBody, hnode]
      rw [hbad] at hperr
      simp at hperr
    | some a =>
      cases a with
      | func nm pf ef p =>
        cases hpr : (pf inp).2 with
        | thrown e =>
          have hbad : (planAction (fuel + 1) reg st inp id).err = some (WErr.thrown e) := by
            simp [planAction, planActionBody, hnode, hpr]
          rw [hbad] at hperr
          simp at hperr
        | ret d =>
          have hps : (planAction (fuel + 1) reg st inp id).store = st := by
            simp [planAction, planActionBody, hnode, hpr]
          have hpt : (planAction (fuel + 1) reg st inp id).trace = [id] := by
            simp [planAction, planActionBody, hnode, hpr]
          rw [hps] at hrel
          have hx : stx id = some (ActionNode.func nm pf ef p) :=
            StoreRel_eq_of_ne_group _ st stx hrel id _ hnode (fun _ _ _ _ h => nomatch h)
          have hxt : (executeAction (fuel + 1) reg stx inpx id).trace = [id] := by
            cases hef : (ef inpx).2 <;> simp [executeAction, executeActionBody, hx, hef]
          rw [hxt, hpt]
      | shell nm d c cw af co ce p =>
        have hps : (planAction (fuel + 1) reg st inp id).store = st := by
          simp [planAction, planActionBody, hnode]
        have hpt : (planAction (fuel + 1) reg st inp id).trace = [id] := by
          simp [planAction, planActionBody, hnode]
        rw [hps] at hrel
        have hx : stx id = some (ActionNode.shell nm d c cw af co ce p) :=
          StoreRel_eq_of_ne_group _ st stx hrel id _ hnode (fun _ _ _ _ h => nomatch h)
        have hxt : (executeAction (fuel + 1) reg stx inpx id).trace = [id] := by
          simp [executeAction, executeActionBody, hx]
        rw [hxt, hpt]
      | call nm req tgt rn p =>
        cases hl : lookupReg reg tgt with
        | none =>
          cases req with
          | true =>
            have hbad : (planAction (fuel + 1) reg st inp id).err =
                some (WErr.thrown ("targetAction not exist: " ++ tgt)) := by
              simp [planAction, planActionBody, hnode, hl]
            rw [hbad] at hperr
            simp at hperr
          | false =>
            have hps : (planAction (fuel + 1) reg st inp id).store = st := by
              simp [planAction, planActionBody, hnode, hl]
            have hpt : (planAction (fuel + 1) reg st inp id).trace = [] := by
              simp [planAction, planActionBody, hnode, hl]
            rw [hps] at hrel
            have hx : stx id = some (ActionNode.call nm false tgt rn p) :=
              StoreRel_eq_of_ne_group _ st stx hrel id _ hnode (fun _ _ _ _ h => nomatch h)
            have hxt : (executeAction (fuel + 1) reg stx inpx id).trace = [] := by
              simp [executeAction, executeActionBody, hx, hl]
            rw [hxt, hpt]
        | some tid =>
          cases rn with
          | none =>
            have hplan : planAction (fuel + 1) reg st inp id =
                planAction fuel reg st inp tid := by
              simp [planAction, planActionBody, hnode, hl]
            rw [hplan] at hrel hperr ⊢
            have hstc : (planAction fuel reg st inp tid).store id =
                some (ActionNode.call nm req tgt none p) :=
              StoreRel_eq_of_ne_group _ st _
                (planAction_storeRel fuel reg st inp tid) id _ hnode
                (fun _ _ _ _ h => nomatch h)
            have hx : stx id = some (ActionNode.call nm req tgt none p) :=
              StoreRel_eq_of_ne_group _ _ stx hrel id _ hstc (fun _ _ _ _ h => nomatch h)
            have hexec : executeAction (fuel + 1) reg stx inpx id =
                executeAction fuel reg stx inpx tid := by
              simp [executeAction, executeActionBody, hx, hl]
            rw [hexec] at hxerr ⊢
            exact ih reg st inp tid stx inpx hrel hperr hxerr
          | some rn' =>
            have hplan : planAction (fuel + 1) reg st inp id =
                planAction fuel reg st (applyRenames rn' inp) tid := by
              simp [planAction, planActionBody, hnode, hl]
            rw [hplan] at hrel hperr ⊢
            have hstc : (planAction fuel reg st (applyRenames rn' inp) tid).store id =
                some (ActionNode.call nm req tgt (some rn') p) :=
              StoreRel_eq_of_ne_group _ st _
                (planAction_storeRel fuel reg st (applyRenames rn' inp) tid) id _ hnode
                (fun _ _ _ _ h => nomatch h)
            have hx : stx id = some (ActionNode.call nm req tgt (some rn') p) :=
              StoreRel_eq_of_ne_group _ _ stx hrel id _ hstc (fun _ _ _ _ h => nomatch h)
            have hexec : executeAction (fuel + 1) reg stx inpx id =
                executeAction fuel reg stx (applyRenames rn' inpx) tid := by
              simp [executeAction, executeActionBody, hx, hl]
            rw [hexec] at hxerr ⊢
            exact ih reg st (applyRenames rn' inp) tid stx (applyRenames rn' inpx) hrel hperr hxerr
      | group nm m children p =>
        by_cases hm : (m = none ∨ m = some Mode.sequential)
        · have hplan : planAction (fuel + 1) reg st inp id =
              seqRun (planAction fuel reg)
                (updateStore st id (ActionNode.group nm m
                  (sortPrio (priorKey reg st) children) p)) inp
                (sortPrio (priorKey reg st) children) := by
            simp only [planAction]
            unfold planActionBody
            rw [hnode]
            dsimp only
            rw [if_pos hm]
          rw [hplan] at hrel hperr ⊢
          have hk' : priorKey reg (updateStore st id (ActionNode.group nm m
              (sortPrio (priorKey reg st) children) p)) = priorKey reg st :=
            priorKey_eq_of_GroupShape reg st _
              (updateStore_GroupShape st id nm m children _ p hnode)
          have hA : StoreRel (priorKey reg st)
              (updateStore st id (ActionNode.group nm m (sortPrio (priorKey reg st) children) p))
              (seqRun (planAction fuel reg)
                (updateStore st id (ActionNode.group nm m (sortPrio (priorKey reg st) children) p))
                inp (sortPrio (priorKey reg st) children)).store := by
            have h0 := seqRun_plan_storeRel fuel reg
              (fun st' inp' id' => planAction_storeRel fuel reg st' inp' id')
              (sortPrio (priorKey reg st) children)
              (updateStore st id (ActionNode.group nm m (sortPrio (priorKey reg st) children) p))
              inp
            rwa [hk'] at h0
          have hst'id : (updateStore st id (ActionNode.group nm m
              (sortPrio (priorKey reg st) children) p)) id =
              some (ActionNode.group nm m (sortPrio (priorKey reg st) children) p) := by
            simp [updateStore]
          have hrid : (seqRun (planAction fuel reg)
              (updateStore st id (ActionNode.group nm m (sortPrio (priorKey reg st) children) p))
              inp (sortPrio (priorKey reg st) children)).store id =
              some (ActionNode.group nm m (sortPrio (priorKey reg st) children) p) := by
            rcases hA id with he | ⟨nm2, m2, arr2, p2, hs2, hm2, ht2⟩
            · rw [he, hst'id]
            · rw [hst'id] at hs2
              injection Option.some.inj hs2 with h1 h2 h3 h4
              subst h1; subst h2; subst h4; subst h3
              rw [sortPrio_idem] at ht2
              exact ht2
          have hx : stx id = some (ActionNode.group nm m
              (sortPrio (priorKey reg st) children) p) := by
            rcases hrel id with he | ⟨nm2, m2, arr2, p2, hs2, hm2, ht2⟩
            · rw [he, hrid]
            · rw [hrid] at hs2
              injection Option.some.inj hs2 with h1 h2 h3 h4
              subst h1; subst h2; subst h4; subst h3
              rw [sortPrio_idem] at ht2
              exact ht2
          have hexec : executeAction (fuel + 1) reg stx inpx id =
              seqRun (executeAction fuel reg) stx inpx
                (sortPrio (priorKey reg st) children) := by
            simp [executeAction, executeActionBody, hx]
          rw [hexec] at hxerr ⊢
          apply simSeq_of_simNode fuel reg
            (fun st' inp' id' stx' inpx' => ih reg st' inp' id' stx' inpx')
          · rw [hk']; exact hrel
          · exact hperr
          · exact hxerr
        · have hplan : planAction (fuel + 1) reg st inp id =
              seqRun (planAction fuel reg) st inp children := by
            simp only [planAction]
            unfold planActionBody
            rw [hnode]
            dsimp only
            rw [if_neg hm]
          rw [hplan] at hrel hperr ⊢
          have hA : StoreRel (priorKey reg st) st
              (seqRun (planAction fuel reg) st inp children).store :=
            seqRun_plan_storeRel fuel reg
              (fun st' inp' id' => planAction_storeRel fuel reg st' inp' id') children st inp
          have hrid : (seqRun (planAction fuel reg) st inp children).store id =
              some (ActionNode.group nm m children p) := by
            rcases hA id with he | ⟨nm2, m2, arr2, p2, hs2, hm2, ht2⟩
            · rw [he, hnode]
            · rw [hnode] at hs2
              injection Option.some.inj hs2 with h1 h2 h3 h4
              subst h2
              exact absurd hm2 hm
          have hx : stx id = some (ActionNode.group nm m children p) := by
            rcases hrel id with he | ⟨nm2, m2, arr2, p2, hs2, hm2, ht2⟩
            · rw [he, hrid]
            · rw [hrid] at hs2
              injection Option.some.inj hs2 with h1 h2 h3 h4
              subst h2
              exact absurd hm2 hm
          have hexec : executeAction (fuel + 1) reg stx inpx id =
              seqRun (executeAction fuel reg) stx inpx children := by
            simp [executeAction, executeActionBody, hx]
          rw [hexec] at hxerr ⊢
          exact simSeq_of_simNode fuel reg
            (fun st' inp' id' stx' inpx' => ih reg st' inp' id' stx' inpx')
            children st inp stx inpx hrel hperr hxerr

/-- C9, amended: running the Plan Walker and then the Execute Walker over the
heap the Plan Walker produced (the in-place sorted tree), the Execute Walker
visits the leaf actions in the plan's traversal order of the sorted tree —
the order in which the sequenced planAction visits them, which a fully
awaited plan recursion would also print — whenever both runs succeed.  The
order the real plan run observably emits is weaker: because planAction does
not await its descent into call targets, a target subtree with two or more
suspension points interleaves with later siblings (see C9_counterexample),
so the observable plan order does not predict the execute order. -/
theorem C9_plan_execute_same_order (fuel : Nat) (reg : Registry) (st : Store)
    (inp inp2 : Inputs) (id : Nat)
    (hperr : (planAction fuel reg st inp id).err = none)
    (hxerr : (executeAction fuel reg (planAction fuel reg st inp id).store inp2 id).err = none) :
    (executeAction fuel reg (planAction fuel reg st inp id).store inp2 id).trace =
      (planAction fuel reg st inp id).trace :=
  planExec_trace_sim fuel reg st inp id _ inp2 (StoreRel_refl _ _) hperr hxerr

/-- C9, witness: on the C9 fixture both runs succeed and the execute trace
equals the plan trace. -/
theorem C9_witness :
    (planAction 4 regC9 storeC9 [] 0).err = none ∧
    (executeAction 4 regC9 (planAction 4 regC9 storeC9 [] 0).store [] 0).err = none ∧
    (executeAction 4 regC9 (planAction 4 regC9 storeC9 [] 0).store [] 0).trace =
      (planAction 4 regC9 storeC9 [] 0).trace :=
  ⟨rfl, rfl, C9_plan_execute_same_order 4 regC9 storeC9 [] [] 0 rfl rfl⟩

-- Termination: with a topological rank certificate for the call graph of the
-- heap, enough fuel rules out the out-of-fuel outcome in both walkers.

theorem EdgeStep_mono (key : Nat → Nat) (reg : Registry) (s t : Store)
    (h : StoreRel key s t) (i j : Nat)
    (he : EdgeStep reg t i j) : EdgeStep reg s i j := by
  obtain ⟨a, hti, hj⟩ := he
  rcases h i with heq | ⟨nm, m, arr, p, hs, hm, ht⟩
  · refine ⟨a, ?_, hj⟩
    rw [← heq]
    exact hti
  · rw [ht] at hti
    have ha := Option.some.inj hti
    subst ha
    refine ⟨ActionNode.group nm m arr p, hs, ?_⟩
    simpa [succs, mem_sortPrio] using hj

theorem seqRun_exec_no_fuel (fuel : Nat) (reg : Registry) (rank : Nat → Nat)
    (Hnode : ∀ st inp root, (∀ i j, EdgeStep reg st i j → rank j < rank i) →
      rank root < fuel →
      (executeAction fuel reg st inp root).err ≠ some WErr.outOfFuel) :
    ∀ ids st inp, (∀ i j, EdgeStep reg st i j → rank j < rank i) →
      (∀ j, j ∈ ids → rank j < fuel) →
      (seqRun (executeAction fuel reg) st inp ids).err ≠ some WErr.outOfFuel := by
  intro ids
  induction ids with
  | nil => intro st inp _ _; simp [seqRun]
  | cons id rest ih =>
    intro st inp hrank hmem
    simp only [seqRun]
    cases herr : (executeAction fuel reg st inp id).err with
    | some e =>
      have h := Hnode st inp id hrank (hmem id (List.mem_cons_self id rest))
      rw [herr] at h
      simpa using h
    | none =>
      have hst : (executeAction fuel reg st inp id).store = st :=
        executeAction_store fuel reg st inp id
      simp only [hst]
      simpa using ih st (executeAction fuel reg st inp id).inputs hrank
        (fun j hj => hmem j (List.mem_cons_of_mem id hj))

theorem executeAction_no_fuel (reg : Registry) (rank : Nat → Nat) :
    ∀ fuel st inp root, (∀ i j, EdgeStep reg st i j → rank j < rank i) →
      rank root < fuel →
      (executeAction fuel reg st inp root).err ≠ some WErr.outOfFuel := by
  intro fuel
  induction fuel with
  | zero => intro st inp root _ h; omega
  | succ fuel ih =>
    intro st inp root hrank hroot
    simp only [executeAction]
    unfold executeActionBody
    cases hnode : st root with
    | none => simp
    | some a =>
      cases a with
      | func nm pf ef p =>
        dsimp only
        cases (ef inp).2 <;> simp
      | shell nm d c cw af co ce p => simp
      | call nm req tgt rn p =>
        dsimp only
        cases hl : lookupReg reg tgt with
        | none => cases req <;> simp
        | some tid =>
          have hedge : EdgeStep reg st root tid := ⟨_, hnode, by simp [succs, hl]⟩
          have hlt := hrank root tid hedge
          exact ih st _ tid hrank (by omega)
      | group nm m children p =>
        apply seqRun_exec_no_fuel fuel reg rank
          (fun st' inp' root' h1 h2 => ih st' inp' root' h1 h2) children st inp hrank
        intro j hj
        have hedge : EdgeStep reg st root j := ⟨_, hnode, by simp [succs, hj]⟩
        have hlt := hrank root j hedge
        omega

theorem seqRun_plan_no_fuel (fuel : Nat) (reg : Registry) (rank : Nat → Nat)
    (Hnode : ∀ st inp root, (∀ i j, EdgeStep reg st i j → rank j < rank i) →
      rank root < fuel →
      (planAction fuel reg st inp root).err ≠ some WErr.outOfFuel) :
    ∀ ids st inp, (∀ i j, EdgeStep reg st i j → rank j < rank i) →
      (∀ j, j ∈ ids → rank j < fuel) →
      (seqRun (planAction fuel reg) st inp ids).err ≠ some WErr.outOfFuel := by
  intro ids
  induction ids with
  | nil => intro st inp _ _; simp [seqRun]
  | cons id rest ih =>
    intro st inp hrank hmem
    simp only [seqRun]
    cases herr : (planAction fuel reg st inp id).err with
    | some e =>
      have h := Hnode st inp id hrank (hmem id (List.mem_cons_self id rest))
      rw [herr] at h
      simpa using h
    | none =>
      have hrel := planAction_storeRel fuel reg st inp id
      have hrank' : ∀ i j, EdgeStep reg (planAction fuel reg st inp id).store i j →
          rank j < rank i :=
        fun i j he => hrank i j (EdgeStep_mono _ reg st _ hrel i j he)
      simpa using ih (planAction fuel reg st inp id).store
        (planAction fuel reg st inp id).inputs hrank'
        (fun j hj => hmem j (List.mem_cons_of_mem id hj))

theorem planAction_no_fuel (reg : Registry) (rank : Nat → Nat) :
    ∀ fuel st inp root, (∀ i j, EdgeStep reg st i j → rank j < rank i) →
      rank root < fuel →
      (planAction fuel reg st inp root).err ≠ some WErr.outOfFuel := by
  intro fuel
  induction fuel with
  | zero => intro st inp root _ h; omega
  | succ fuel ih =>
    intro st inp root hrank hroot
    simp only [planAction]
    unfold planActionBody
    cases hnode : st root with
    | none => simp
    | some a =>
      cases a with
      | func nm pf ef p =>
        dsimp only
        cases (pf inp).2 <;> simp
      | shell nm d c cw af co ce p => simp
      | call nm req tgt rn p =>
        dsimp only
        cases hl : lookupReg reg tgt with
        | none => cases req <;> simp
        | some tid =>
          have hedge : EdgeStep reg st root tid := ⟨_, hnode, by simp [succs, hl]⟩
          have hlt := hrank root tid hedge
          exact ih st _ tid hrank (by omega)
      | group nm m children p =>
        dsimp only
        have hchild : ∀ j, j ∈ children → rank j < fuel := by
          intro j hj
          have hedge : EdgeStep reg st root j := ⟨_, hnode, by simp [succs, hj]⟩
          have hlt := hrank root j hedge
          omega
        by_cases hm : (m = none ∨ m = some Mode.sequential)
        · rw [if_pos hm]
          have hrel : StoreRel (priorKey reg st) st
              (updateStore st root (ActionNode.group nm m
                (sortPrio (priorKey reg st) children) p)) := by
            intro j
            by_cases hj : j = root
            · subst hj
              exact Or.inr ⟨nm, m, children, p, hnode, hm, by simp [updateStore]⟩
            · left; simp [updateStore, hj]
          have hrank' : ∀ i j, EdgeStep reg
              (updateStore st root (ActionNode.group nm m
                (sortPrio (priorKey reg st) children) p)) i j → rank j < rank i :=
            fun i j he => hrank i j (EdgeStep_mono _ reg st _ hrel i j he)
          apply seqRun_plan_no_fuel fuel reg rank
            (fun st' inp' root' h1 h2 => ih st' inp' root' h1 h2)
            (sortPrio (priorKey reg st) children) _ inp hrank'
          intro j hj
          exact hchild j ((mem_sortPrio _ j children).mp hj)
        · rw [if_neg hm]
          exact seqRun_plan_no_fuel fuel reg rank
            (fun st' inp' root' h1 h2 => ih st' inp' root' h1 h2)
            children st inp hrank hchild

/-- Divergence on the smallest cyclic call graph: a required call whose
registry target is itself exhausts every fuel bound, the embedding's rendering
of nontermination of the unguarded recursion. -/
theorem cyclic_call_diverges :
    ∀ fuel inp, (executeAction fuel regCyc storeCyc inp 0).err = some WErr.outOfFuel ∧
      (planAction fuel regCyc storeCyc inp 0).err = some WErr.outOfFuel := by
  intro fuel
  induction fuel with
  | zero => intro inp; exact ⟨rfl, rfl⟩
  | succ fuel ih =>
    intro inp
    constructor
    · simpa [executeAction, executeActionBody, storeCyc, regCyc, lookupReg] using (ih inp).1
    · simpa [planAction, planActionBody, storeCyc, regCyc, lookupReg] using (ih inp).2

/-- C10: both walkers terminate on every heap and registry whose call graph is
acyclic.  Acyclicity is given as a topological rank certificate for the
recursion edges (group to child and call to registry-resolved target); with
fuel exceeding the root's rank, neither planAction nor executeAction can
report out-of-fuel, the embedding's rendering of divergence of the source's
unguarded recursion. -/
theorem C10_termination (fuel : Nat) (reg : Registry) (st : Store) (inp : Inputs)
    (root : Nat) (rank : Nat → Nat)
    (hrank : ∀ i j, EdgeStep reg st i j → rank j < rank i)
    (hfuel : rank root < fuel) :
    (planAction fuel reg st inp root).err ≠ some WErr.outOfFuel ∧
    (executeAction fuel reg st inp root).err ≠ some WErr.outOfFuel :=
  ⟨planAction_no_fuel reg rank fuel st inp root hrank hfuel,
   executeAction_no_fuel reg rank fuel st inp root hrank hfuel⟩

/-- C10, witness: the C10 fixture's call graph is acyclic as certified by
rankC10, and with fuel 3 both walkers terminate on it. -/
theorem C10_witness :
    (∀ i j, EdgeStep regC10 storeC10 i j → rankC10 j < rankC10 i) ∧
    rankC10 0 < 3 ∧
    (planAction 3 regC10 storeC10 [] 0).err ≠ some WErr.outOfFuel ∧
    (executeAction 3 regC10 storeC10 [] 0).err ≠ some WErr.outOfFuel := by
  have hrank : ∀ i j, EdgeStep regC10 storeC10 i j → rankC10 j < rankC10 i := by
    intro i j he
    obtain ⟨a, hi, hj⟩ := he
    rcases i with _ | _ | _ | i
    · simp only [storeC10] at hi
      have ha := Option.some.inj hi
      subst ha
      simp [succs] at hj
      rcases hj with rfl | rfl <;> decide
    · simp only [storeC10] at hi
      have ha := Option.some.inj hi
      subst ha
      simp [succs] at hj
    · simp only [storeC10] at hi
      have ha := Option.some.inj hi
      subst ha
      simp [succs, regC10, lookupReg] at hj
      subst hj
      decide
    · simp [storeC10] at hi
  refine ⟨hrank, by decide, ?_, ?_⟩
  · exact (C10_termination 3 regC10 storeC10 [] 0 rankC10 hrank (by decide)).1
  · exact (C10_termination 3 regC10 storeC10 [] 0 rankC10 hrank (by decide)).2

-- Leaf-level runs: a leaf contributes exactly its own id to the trace, and
-- neither walker touches the heap at a leaf.

theorem LeafAt_of_ExecLeafOk (st : Store) (j : Nat) (h : ExecLeafOk st j) :
    LeafAt st j := by
  rcases h with ⟨nm, d, c, cw, af, co, ce, p, hj⟩ | ⟨nm, pf, ef, p, hj, _⟩
  · exact Or.inl ⟨nm, d, c, cw, af, co, ce, p, hj⟩
  · exact Or.inr ⟨nm, pf, ef, p, hj⟩

theorem ExecLeafOk_congr (s t : Store) (j : Nat) (hEq : t j = s j)
    (h : ExecLeafOk s j) : ExecLeafOk t j := by
  unfold ExecLeafOk at h ⊢
  rw [hEq]
  exact h

theorem LeafAt_congr (s t : Store) (j : Nat) (hEq : t j = s j)
    (h : LeafAt s j) : LeafAt t j := by
  unfold LeafAt at h ⊢
  rw [hEq]
  exact h

theorem executeAction_leaf (fuel : Nat) (reg : Registry) (st : Store) (inp : Inputs)
    (j : Nat) (h : ExecLeafOk st j) :
    (executeAction (fuel + 1) reg st inp j).trace = [j] ∧
    (executeAction (fuel + 1) reg st inp j).err = none ∧
    (executeAction (fuel + 1) reg st inp j).store = st := by
  rcases h with ⟨nm, d, c, cw, af, co, ce, p, hj⟩ | ⟨nm, pf, ef, p, hj, hnt⟩
  · refine ⟨?_, ?_, ?_⟩ <;> simp [executeAction, executeActionBody, hj]
  · cases hef : (ef inp).2 with
    | thrown e => exact absurd hef (hnt inp e)
    | ok => refine ⟨?_, ?_, ?_⟩ <;> simp [executeAction, executeActionBody, hj, hef]
    | err e => refine ⟨?_, ?_, ?_⟩ <;> simp [executeAction, executeActionBody, hj, hef]

theorem seqRun_exec_leaf_trace (fuel : Nat) (reg : Registry) :
    ∀ ids st inp, (∀ j, j ∈ ids → ExecLeafOk st j) →
      (seqRun (executeAction (fuel + 1) reg) st inp ids).trace = ids ∧
      (seqRun (executeAction (fuel + 1) reg) st inp ids).err = none := by
  intro ids
  induction ids with
  | nil => intro st inp _; exact ⟨rfl, rfl⟩
  | cons id rest ih =>
    intro st inp hld
    obtain ⟨ht1, he1, hs1⟩ :=
      executeAction_leaf fuel reg st inp id (hld id (List.mem_cons_self id rest))
    have ihr := ih st (executeAction (fuel + 1) reg st inp id).inputs
      (fun j hj => hld j (List.mem_cons_of_mem id hj))
    constructor
    · simp [seqRun, he1, hs1, ht1, ihr.1]
    · simp [seqRun, he1, hs1, ihr.2]

theorem planAction_leaf_store (fuel : Nat) (reg : Registry) (st : Store) (inp : Inputs)
    (j : Nat) (h : LeafAt st j) :
    (planAction (fuel + 1) reg st inp j).store = st := by
  rcases h with ⟨nm, d, c, cw, af, co, ce, p, hj⟩ | ⟨nm, pf, ef, p, hj⟩
  · simp [planAction, planActionBody, hj]
  · cases hpf : (pf inp).2 <;> simp [planAction, planActionBody, hj, hpf]

theorem seqRun_plan_leaf_store (fuel : Nat) (reg : Registry) :
    ∀ ids st inp, (∀ j, j ∈ ids → LeafAt st j) →
      (seqRun (planAction (fuel + 1) reg) st inp ids).store = st := by
  intro ids
  induction ids with
  | nil => intro st inp _; rfl
  | cons id rest ih =>
    intro st inp hld
    have hs1 := planAction_leaf_store fuel reg st inp id (hld id (List.mem_cons_self id rest))
    cases herr : (planAction (fuel + 1) reg st inp id).err with
    | some e => simp [seqRun, herr, hs1]
    | none =>
      simp [seqRun, herr, hs1,
        ih st (planAction (fuel + 1) reg st inp id).inputs
          (fun j hj => hld j (List.mem_cons_of_mem id hj))]

theorem planAction_group_sorted (fuel : Nat) (reg : Registry) (st : Store) (inp : Inputs)
    (gid : Nat) (nm : Option String) (m : Option Mode) (children : List Nat)
    (p : Option Nat)
    (hnode : st gid = some (ActionNode.group nm m children p))
    (hm : m = none ∨ m = some Mode.sequential) :
    (planAction (fuel + 1) reg st inp gid).store gid =
      some (ActionNode.group nm m (sortPrio (priorKey reg st) children) p) := by
  have hplan : planAction (fuel + 1) reg st inp gid =
      seqRun (planAction fuel reg)
        (updateStore st gid (ActionNode.group nm m
          (sortPrio (priorKey reg st) children) p)) inp
        (sortPrio (priorKey reg st) children) := by
    simp only [planAction]
    unfold planActionBody
    rw [hnode]
    dsimp only
    rw [if_pos hm]
  rw [hplan]
  have hk' : priorKey reg (updateStore st gid (ActionNode.group nm m
      (sortPrio (priorKey reg st) children) p)) = priorKey reg st :=
    priorKey_eq_of_GroupShape reg st _
      (updateStore_GroupShape st gid nm m children _ p hnode)
  have hA := seqRun_plan_storeRel fuel reg
    (fun st' inp' id' => planAction_storeRel fuel reg st' inp' id')
    (sortPrio (priorKey reg st) children)
    (updateStore st gid (ActionNode.group nm m (sortPrio (priorKey reg st) children) p))
    inp
  rw [hk'] at hA
  have hst'id : (updateStore st gid (ActionNode.group nm m
      (sortPrio (priorKey reg st) children) p)) gid =
      some (ActionNode.group nm m (sortPrio (priorKey reg st) children) p) := by
    simp [updateStore]
  rcases hA gid with he | ⟨nm2, m2, arr2, p2, hs2, hm2, ht2⟩
  · rw [he, hst'id]
  · rw [hst'id] at hs2
    injection Option.some.inj hs2 with h1 h2 h3 h4
    subst h1; subst h2; subst h4; subst h3
    rw [sortPrio_idem] at ht2
    exact ht2

/-- C1, counterexample: in the C1 fixture the sequential group's children
carry priorities P4 then P1 in declaration order, and executeAction alone
visits them in declaration order [1, 2], which is not non-decreasing in
resolved priority: the Execute Walker performs no priority sorting. -/
theorem C1_counterexample :
    (executeAction 3 [] storeC1 [] 0).trace = [1, 2] ∧
    priorKey [] storeC1 1 = 4 ∧ priorKey [] storeC1 2 = 1 ∧
    ¬ ((executeAction 3 [] storeC1 [] 0).trace.Pairwise
        (fun a b => priorKey [] storeC1 a ≤ priorKey [] storeC1 b)) :=
  ⟨rfl, rfl, rfl, by decide⟩

/-- C1, amended: executeAction invokes a sequential group's children in the
order of the group's actions array (each child completing before the next),
ignoring priorities; it is planAction that stably sorts that array in place
into non-decreasing resolved-priority order (ties keeping declaration
order), so the Execute Walker runs children in priority order exactly when
the Plan Walker has first been run on the same heap. -/
theorem C1_exec_declaration_order (fuel : Nat) (reg : Registry) (st : Store)
    (inp inpx : Inputs) (gid : Nat) (nm : Option String) (m : Option Mode)
    (children : List Nat) (p : Option Nat)
    (hnode : st gid = some (ActionNode.group nm m children p))
    (hm : m = none ∨ m = some Mode.sequential)
    (hleaf : ∀ j, j ∈ children → ExecLeafOk st j) :
    (executeAction (fuel + 2) reg st inpx gid).trace = children ∧
    (planAction (fuel + 2) reg st inp gid).store gid =
      some (ActionNode.group nm m (sortPrio (priorKey reg st) children) p) ∧
    (sortPrio (priorKey reg st) children).Pairwise
      (fun a b => priorKey reg st a ≤ priorKey reg st b) ∧
    (∀ k, (sortPrio (priorKey reg st) children).filter
        (fun a => priorKey reg st a == k) =
      children.filter (fun a => priorKey reg st a == k)) ∧
    (executeAction (fuel + 2) reg (planAction (fuel + 2) reg st inp gid).store inpx gid).trace =
      sortPrio (priorKey reg st) children := by
  have hne : ∀ j, j ∈ children → j ≠ gid := by
    intro j hj hEq
    subst hEq
    rcases hleaf j hj with ⟨nm1, d1, c1, cw1, af1, co1, ce1, p1, hj'⟩ |
      ⟨nm1, pf1, ef1, p1, hj', _⟩ <;>
      · rw [hnode] at hj'
        exact nomatch Option.some.inj hj'
  have hexec1 : (executeAction (fuel + 2) reg st inpx gid).trace = children := by
    have hbody : executeAction (fuel + 2) reg st inpx gid =
        seqRun (executeAction (fuel + 1) reg) st inpx children := by
      simp [executeAction, executeActionBody, hnode]
    rw [hbody]
    exact (seqRun_exec_leaf_trace fuel reg children st inpx hleaf).1
  have hP : (planAction (fuel + 2) reg st inp gid).store =
      updateStore st gid (ActionNode.group nm m
        (sortPrio (priorKey reg st) children) p) := by
    have hplan : planAction (fuel + 2) reg st inp gid =
        seqRun (planAction (fuel + 1) reg)
          (updateStore st gid (ActionNode.group nm m
            (sortPrio (priorKey reg st) children) p)) inp
          (sortPrio (priorKey reg st) children) := by
      simp only [planAction]
      unfold planActionBody
      rw [hnode]
      dsimp only
      rw [if_pos hm]
    rw [hplan]
    apply seqRun_plan_leaf_store
    intro j hj
    have hjc : j ∈ children := (mem_sortPrio _ j children).mp hj
    have hEq : (updateStore st gid (ActionNode.group nm m
        (sortPrio (priorKey reg st) children) p)) j = st j := by
      simp [updateStore, hne j hjc]
    exact LeafAt_congr st _ j hEq (LeafAt_of_ExecLeafOk st j (hleaf j hjc))
  refine ⟨hexec1, ?_, sortPrio_pairwise _ children,
    fun k => filter_sortPrio _ k children, ?_⟩
  · rw [hP]
    simp [updateStore]
  · rw [hP]
    have hgid : (updateStore st gid (ActionNode.group nm m
        (sortPrio (priorKey reg st) children) p)) gid =
        some (ActionNode.group nm m (sortPrio (priorKey reg st) children) p) := by
      simp [updateStore]
    have hbody : executeAction (fuel + 2) reg
        (updateStore st gid (ActionNode.group nm m
          (sortPrio (priorKey reg st) children) p)) inpx gid =
        seqRun (executeAction (fuel + 1) reg)
          (updateStore st gid (ActionNode.group nm m
            (sortPrio (priorKey reg st) children) p)) inpx
          (sortPrio (priorKey reg st) children) := by
      simp [executeAction, executeActionBody, hgid]
    rw [hbody]
    apply (seqRun_exec_leaf_trace fuel reg _ _ inpx ?_).1
    intro j hj
    have hjc : j ∈ children := (mem_sortPrio _ j children).mp hj
    have hEq : (updateStore st gid (ActionNode.group nm m
        (sortPrio (priorKey reg st) children) p)) j = st j := by
      simp [updateStore, hne j hjc]
    exact ExecLeafOk_congr st _ j hEq (hleaf j hjc)

/-- C1, witness: the amended ordering theorem applied to the C1 fixture. -/
theorem C1_witness :
    (executeAction 2 [] storeC1 [] 0).trace = [1, 2] ∧
    (planAction 2 [] storeC1 [] 0).store 0 =
      some (ActionNode.group none none (sortPrio (priorKey [] storeC1) [1, 2]) none) ∧
    (sortPrio (priorKey [] storeC1) [1, 2]).Pairwise
      (fun a b => priorKey [] storeC1 a ≤ priorKey [] storeC1 b) ∧
    (∀ k, (sortPrio (priorKey [] storeC1) [1, 2]).filter
        (fun a => priorKey [] storeC1 a == k) =
      [1, 2].filter (fun a => priorKey [] storeC1 a == k)) ∧
    (executeAction 2 [] (planAction 2 [] storeC1 [] 0).store [] 0).trace =
      sortPrio (priorKey [] storeC1) [1, 2] :=
  C1_exec_declaration_order 0 [] storeC1 [] [] 0 none none [1, 2] none rfl (Or.inl rfl)
    (by
      intro j hj
      simp only [List.mem_cons, List.mem_singleton] at hj
      rcases hj with rfl | rfl | h
      · exact Or.inr ⟨some "a", fun i => (i, PlanRes.ret "plan a"),
          fun i => (i, FnRes.ok), some 4, rfl, fun i e h => nomatch h⟩
      · exact Or.inr ⟨some "b", fun i => (i, PlanRes.ret "plan b"),
          fun i => (i, FnRes.ok), some 1, rfl, fun i e h => nomatch h⟩
      · exact absurd h (List.not_mem_nil j))

/-- C9, counterexample: on the C9x fixture the asynchronous plan run
completes cleanly (root chain done, no rejection, queue drained, fuel left)
but visits the leaves in order [4, 2, 5] — the un-awaited call-target
subtree's second leaf runs after the outer sibling — while executeAction on
the heap the plan produced succeeds and visits [4, 5, 2]: the round-trip
claim that plan order predicts execute order is false on the program. -/
theorem C9_counterexample :
    (planActionAsync 20 regC9x storeC9x [] 0).mainDone = true ∧
    (planActionAsync 20 regC9x storeC9x [] 0).mainErr = none ∧
    (planActionAsync 20 regC9x storeC9x [] 0).fuelOut = false ∧
    (planActionAsync 20 regC9x storeC9x [] 0).queue = [] ∧
    (planActionAsync 20 regC9x storeC9x [] 0).trace = [4, 2, 5] ∧
    (executeAction 4 regC9x (planActionAsync 20 regC9x storeC9x [] 0).store [] 0).err = none ∧
    (executeAction 4 regC9x (planActionAsync 20 regC9x storeC9x [] 0).store [] 0).trace = [4, 5, 2] ∧
    ([4, 2, 5] : List Nat) ≠ [4, 5, 2] :=
  ⟨rfl, rfl, rfl, rfl, rfl, rfl, rfl, by decide⟩
